import Mathlib

/-!
Clocked stimulus-replay harnesses.

A shallow embedding of the six Verilator test harnesses of the repository

* `benchmarks/NeuromorphicProcessor/testbench.cc`
* `benchmarks/TLRAM/TLRAMStandalone.cpp`
* `benchmarks/serv-chisel/testbench.cc`
* `benchmarks/riscv-mini/testbench.cc`
* `benchmarks/top.cpp`
* `verilator/user-coverage/top.cpp`

Each `main` is a `while` loop around the `eval` method of a compiled hardware
model.  The model class and the C library are not part of the repository:
the model is a parameter (`Model`), and the part of `stdio` that the harnesses
call (`feof`, `fscanf` with `%x` and white-space directives) is modelled on a
stream of characters.

The embedding is instrumented: every statement of a loop body that touches the
device or the stimulus file or the waveform appends an `Event` to the history
of the run, one list of events per loop iteration.
-/

namespace Harness

/-! ## The C library: a stream of characters with an end-of-file indicator -/

/-- The `FILE` object: the characters not yet read and the end-of-file
indicator, which a read sets when it runs into the end of the stream. -/
structure FILE where
  buf : List Char
  eof : Bool
deriving DecidableEq, Repr

/-- A freshly opened stream: `fopen(name, "r")` on a file with the given content. -/
def fopen (content : List Char) : FILE := ⟨content, false⟩

/-- The call `feof(pFile)`: the end-of-file indicator, nothing is read. -/
def feof (f : FILE) : Bool := f.eof

/-- The six white-space characters of the C locale. -/
def isspace (c : Char) : Bool :=
  c == ' ' || c == '\t' || c == '\n' || c == '\x0b' || c == '\x0c' || c == '\r'

/-- Hexadecimal digits, either case. -/
def isxdigit (c : Char) : Bool :=
  ('0' ≤ c && c ≤ '9') || ('a' ≤ c && c ≤ 'f') || ('A' ≤ c && c ≤ 'F')

/-- Value of one hexadecimal digit. -/
def xdigitVal (c : Char) : Nat :=
  if '0' ≤ c && c ≤ '9' then c.toNat - 48
  else if 'a' ≤ c && c ≤ 'f' then c.toNat - 87
  else c.toNat - 55

/-- Value of a run of hexadecimal digits, most significant first. -/
def hexVal (ds : List Char) : Nat :=
  ds.foldl (fun acc c => 16 * acc + xdigitVal c) 0

/-- One directive of an `fscanf` format, as far as the harnesses use them. -/
inductive Directive where
  | hex    -- a conversion "%x"
  | space  -- a run of white space in the format
deriving DecidableEq, Repr

/-- Reading of a format string into directives.  A character that is neither
white space nor part of "%x" does not occur in the formats of the repository
and is dropped. -/
def directives : List Char → List Directive
  | [] => []
  | '%' :: 'x' :: rest => Directive.hex :: directives rest
  | c :: rest =>
    if isspace c then
      match directives rest with
      | Directive.space :: ds => Directive.space :: ds
      | ds => Directive.space :: ds
    else directives rest

/-- A white-space directive: input is read up to the first character that is
not white space, which stays unread, or to the end of the stream, which sets
the end-of-file indicator.  The directive never fails. -/
def scanSpace (f : FILE) : FILE :=
  let rest := f.buf.dropWhile isspace
  ⟨rest, f.eof || rest.isEmpty⟩

/-- The conversion "%x": white space is skipped, then the longest run of
hexadecimal digits is read.  No digit means failure (input failure at the end
of the stream, matching failure otherwise; the offending character stays
unread).  The result is stored through an `unsigned int` pointer: the low 32
bits.  The optional sign and the optional 0x in front of the digits are not
modelled; the statements below that depend on what a call converts are about
files of fields made of digits only. -/
def scanHex (f : FILE) : FILE × Option Nat :=
  let f1 := scanSpace f
  let ds := f1.buf.takeWhile isxdigit
  let rest := f1.buf.dropWhile isxdigit
  if ds.isEmpty then (f1, none)
  else (⟨rest, f1.eof || rest.isEmpty⟩, some (hexVal ds % 2 ^ 32))

/-- The call `fscanf(pFile, format, ...)`: the directives are executed in
order until one fails; the values converted so far are returned in order.
(The harnesses ignore the return value of `fscanf`.) -/
def fscanf : List Directive → FILE → FILE × List Nat
  | [], f => (f, [])
  | Directive.space :: ds, f => fscanf ds (scanSpace f)
  | Directive.hex :: ds, f =>
    match scanHex f with
    | (f1, none) => (f1, [])
    | (f1, some v) => ((fscanf ds f1).1, v :: (fscanf ds f1).2)

/-- Assignment to a port of the model: the value is cut to the port's storage
width. -/
def trunc (bits v : Nat) : Nat := v % 2 ^ bits

/-! ### Stimulus files made of well-formed records -/

/-- One field of a stimulus file as it is written: its hexadecimal digits and
the white space that follows them. -/
structure Field where
  digits : List Char
  sep : List Char
deriving DecidableEq, Repr

/-- The characters of a field. -/
def Field.text (t : Field) : List Char := t.digits ++ t.sep

/-- The number a field denotes. -/
def Field.val (t : Field) : Nat := hexVal t.digits

/-- A field has at least one digit, only hexadecimal digits, and only white
space after them. -/
def Field.ok (t : Field) : Bool :=
  !t.digits.isEmpty && t.digits.all isxdigit && t.sep.all isspace

/-- The characters of a sequence of fields. -/
def fieldsText (ts : List Field) : List Char := (ts.map Field.text).flatten

/-- Every field is well written (`Field.ok`), and every field but the last of
the file is followed by at least one white-space character. -/
def wellFormed : List Field → Bool
  | [] => true
  | [t] => t.ok
  | t :: ts => t.ok && !t.sep.isEmpty && wellFormed ts

/-- The content of a stimulus file made of the given records. -/
def fileText (recs : List (List Field)) : List Char := fieldsText recs.flatten

/-- A stimulus file of well-formed records of `width` fields each. -/
def wellFormedRecords (width : Nat) (recs : List (List Field)) : Prop :=
  (∀ r ∈ recs, r.length = width) ∧ wellFormed recs.flatten = true

instance (width : Nat) (recs : List (List Field)) :
    Decidable (wellFormedRecords width recs) := by
  unfold wellFormedRecords
  infer_instance

/-- The format "%x %x ... %x\n" with `width` conversions, as directives. -/
def hexFields (width : Nat) : List Directive :=
  (List.replicate width [Directive.hex, Directive.space]).flatten

/-! ## The compiled model and the instrumented run -/

/-- The ports the harness writes: the clock and the other inputs `I` of the
benchmark. -/
structure Top (I : Type) where
  clock : Bool
  inp : I
deriving DecidableEq, Repr

/-- The compiled hardware model together with the simulator's finish flag.
The class is generated outside the repository: `eval` reads the ports and
updates the internal state `σ`; `gotFinish` is `Verilated::gotFinish()`.  The
input ports are written by the harness only: `eval` gets them as an argument
and does not return them. -/
structure Model (I σ : Type) where
  eval : Top I → σ → σ
  gotFinish : σ → Bool

/-- What a statement of a harness does to the device, the stimulus file or
the waveform. -/
inductive Event (I : Type) where
  | clock (v : Bool)       -- an assignment to top->clock, with the value written
  | read (matched : Nat)   -- a call of fscanf, with the number of fields it converted
  | write (pin : String)   -- an assignment to another input port
  | eval (pins : Top I)    -- a call of top->eval(), with the ports at the call
  | dump (stamp : Nat)     -- a call of tfp->dump, with the time stamp passed
deriving DecidableEq, Repr

/-- State of a running harness: the ports, the device, the local variables
`L` of `main` (with the global `main_time` where there is one), the events that
happened before the loop and the events of each loop iteration so far. -/
structure Sim (L I σ : Type) where
  top : Top I
  dev : σ
  loc : L
  pre : List (Event I)
  hist : List (List (Event I))

/-- The loop `while (cond) body` with a bound on the number of iterations:
`none` when the bound is reached before the condition turns false. -/
def whileLoop {S : Type} (cond : S → Bool) (body : S → S) : Nat → S → Option S
  | 0, _ => none
  | fuel + 1, s => if cond s then whileLoop cond body fuel (body s) else some s

/-- The state of `while (cond) body` after its first `n` iterations, or at
its exit when it exits earlier. -/
def iterations {S : Type} (cond : S → Bool) (body : S → S) : Nat → S → S
  | 0, s => s
  | n + 1, s => if cond s then iterations cond body n (body s) else s

/-- The device never raises finish: the flag is down at the start and after
every evaluation. -/
def NeverFinishes {I σ : Type} (m : Model I σ) (dev0 : σ) : Prop :=
  m.gotFinish dev0 = false ∧ ∀ p s, m.gotFinish (m.eval p s) = false

/-- A device that does nothing and never raises finish. -/
def quiet (I : Type) : Model I Unit := ⟨fun _ _ => (), fun _ => false⟩

/-- A device that counts its evaluations and raises finish in the `k`-th. -/
def finishAt (I : Type) (k : Nat) : Model I Nat := ⟨fun _ n => n + 1, fun n => decide (k ≤ n)⟩

/-! ### Reading the history -/

/-- The clock values written in a list of events. -/
def clocksWritten {I : Type} : List (Event I) → List Bool
  | [] => []
  | Event.clock v :: es => v :: clocksWritten es
  | _ :: es => clocksWritten es

/-- The fscanf calls in a list of events, each with the number of fields it
converted. -/
def reads {I : Type} : List (Event I) → List Nat
  | [] => []
  | Event.read k :: es => k :: reads es
  | _ :: es => reads es

/-- The input ports other than the clock written in a list of events. -/
def writes {I : Type} : List (Event I) → List String
  | [] => []
  | Event.write p :: es => p :: writes es
  | _ :: es => writes es

/-- The eval calls in a list of events, each with the ports the device sees. -/
def evals {I : Type} : List (Event I) → List (Top I)
  | [] => []
  | Event.eval p :: es => p :: evals es
  | _ :: es => evals es

/-- The time stamps of the waveform samples in a list of events. -/
def stamps {I : Type} : List (Event I) → List Nat
  | [] => []
  | Event.dump t :: es => t :: stamps es
  | _ :: es => stamps es

/-- All events of a run in program order. -/
def Sim.events {L I σ : Type} (s : Sim L I σ) : List (Event I) :=
  s.pre ++ s.hist.flatten

/-- The clock value the device sees at each eval call of the run, in order. -/
def Sim.evalClocks {L I σ : Type} (s : Sim L I σ) : List Bool :=
  (evals s.events).map Top.clock

/-- Each value is the negation of the one before. -/
def alternates : List Bool → Bool
  | a :: b :: rest => (b == !a) && alternates (b :: rest)
  | _ => true

/-- The clock values seen at the eval calls so far alternate, and the last
of them is the value the clock port holds now. -/
def ClockInv {L I σ : Type} (s : Sim L I σ) : Prop :=
  alternates s.evalClocks = true ∧ ∀ c ∈ s.evalClocks.getLast?, c = s.top.clock

/-! ## The file-driven harnesses -/

/-- Local state of a file-driven `main`: the time counter, the variables
that `fscanf` fills (and `cycles` where there is one), the stimulus file. -/
structure Replay (V : Type) where
  main_time : Nat
  vars : V
  pFile : FILE

/-- What differs between the three file-driven harnesses. -/
structure Bench (V I : Type) where
  /-- The format string of the fscanf call. -/
  format : List Char
  /-- Initial values of the local variables. -/
  init : V
  /-- The statements of the negative-edge block before the fscanf call. -/
  tick : V → V
  /-- The pointer arguments of fscanf: the i-th converted value goes to the
  i-th variable, a variable without a converted value keeps its value.  The
  variables are 64 bit wide and start at 0, "%x" fills their low 32 bits. -/
  store : List Nat → V → V
  /-- The block of assignments `top->x = x`. -/
  drive : V → I
  /-- The ports assigned by that block, in order. -/
  written : List String

/-- Shape of the events of one iteration of a file-driven loop: a clock
write and one eval; with the clock high after the flip no fscanf call and no
write of an input, with the clock low one fscanf call and the writes of the
inputs. -/
def IterShape {V I : Type} (b : Bench V I) (it : List (Event I)) : Prop :=
  (evals it).length = 1 ∧
    ((clocksWritten it = [true] ∧ reads it = [] ∧ writes it = []) ∨
      (clocksWritten it = [false] ∧ (∃ k, reads it = [k]) ∧ writes it = b.written))

/-- The loop condition `!Verilated::gotFinish() && !feof(pFile)`. -/
def replayCond {V I σ : Type} (m : Model I σ) (s : Sim (Replay V) I σ) : Bool :=
  !m.gotFinish s.dev && !feof s.loc.pFile

/-- One iteration of the loop of a file-driven harness; `trace` is VM_TRACE. -/
def replayBody {V I σ : Type} (b : Bench V I) (m : Model I σ) (trace : Bool)
    (s : Sim (Replay V) I σ) : Sim (Replay V) I σ :=
  -- main_time++;
  let main_time := (s.loc.main_time + 1) % 2 ^ 64
  -- top->clock = !top->clock;
  let clock := !s.top.clock
  -- if (!top->clock) { [cycles += 1;] fscanf(pFile, format, &...); top->x = x; ... }
  let rd := fscanf (directives b.format) s.loc.pFile
  let vars := if !clock then b.store rd.2 (b.tick s.loc.vars) else s.loc.vars
  let pFile := if !clock then rd.1 else s.loc.pFile
  let inp := if !clock then b.drive vars else s.top.inp
  let negedge : List (Event I) :=
    if !clock then Event.read rd.2.length :: b.written.map Event.write else []
  -- top->eval();
  let top : Top I := ⟨clock, inp⟩
  let dev := m.eval top s.dev
  -- if (tfp) tfp->dump(main_time);
  let dumped : List (Event I) := if trace then [Event.dump main_time] else []
  { top := top, dev := dev, loc := ⟨main_time, vars, pFile⟩, pre := s.pre,
    hist := s.hist ++ [Event.clock clock :: negedge ++ Event.eval top :: dumped] }

/-- The state at the head of the loop.  `top0` and `dev0` are the model as
its constructor leaves it (the harness does not set the clock); `content` is
the stimulus file, which is taken to open. -/
def replayInit {V I σ : Type} (b : Bench V I) (top0 : Top I) (dev0 : σ)
    (content : List Char) : Sim (Replay V) I σ :=
  { top := ⟨top0.clock, b.drive b.init⟩, dev := dev0,
    loc := ⟨0, b.init, fopen content⟩,
    pre := b.written.map Event.write, hist := [] }

/-- The run of a file-driven `main` up to the exit of its loop. -/
def replayMain {V I σ : Type} (b : Bench V I) (m : Model I σ) (trace : Bool)
    (top0 : Top I) (dev0 : σ) (content : List Char) (fuel : Nat) :
    Option (Sim (Replay V) I σ) :=
  whileLoop (replayCond m) (replayBody b m trace) fuel (replayInit b top0 dev0 content)

/-- The first `n` iterations of the loop of a file-driven `main`. -/
def replayRun {V I σ : Type} (b : Bench V I) (m : Model I σ) (trace : Bool)
    (top0 : Top I) (dev0 : σ) (content : List Char) (n : Nat) : Sim (Replay V) I σ :=
  iterations (replayCond m) (replayBody b m trace) n (replayInit b top0 dev0 content)

namespace NeuromorphicProcessor

/-- Input ports of VNeuromorphicProcessor other than the clock. -/
structure Inputs where
  reset : Nat
  io_uartRx : Nat
deriving DecidableEq, Repr

/-- Local variables of `main`. -/
structure Vars where
  reset : Nat
  io_uartRx : Nat
  cycles : Nat
deriving DecidableEq, Repr

/-- The harness `benchmarks/NeuromorphicProcessor/testbench.cc`; `w` gives
the storage width in bits of each port. -/
def bench (w : Inputs) : Bench Vars Inputs where
  format := "%x %x\n".toList
  init := ⟨0, 0, 0⟩
  tick v := { v with cycles := (v.cycles + 1) % 2 ^ 64 }
  store vals v :=
    { v with reset := vals.getD 0 v.reset, io_uartRx := vals.getD 1 v.io_uartRx }
  drive v := ⟨trunc w.reset v.reset, trunc w.io_uartRx v.io_uartRx⟩
  written := ["reset", "io_uartRx"]

/-- The run of `main` up to the exit of its loop. -/
def main {σ : Type} (w : Inputs) (m : Model Inputs σ) (trace : Bool) (top0 : Top Inputs)
    (dev0 : σ) (content : List Char) (fuel : Nat) : Option (Sim (Replay Vars) Inputs σ) :=
  replayMain (bench w) m trace top0 dev0 content fuel

/-- The number printed before " cycles" at the end of `main`. -/
def reported {σ : Type} (s : Sim (Replay Vars) Inputs σ) : Nat := s.loc.vars.cycles

end NeuromorphicProcessor

namespace TLRAM

/-- Input ports of VTLRAMStandalone other than the clock. -/
structure Inputs where
  reset : Nat
  in_a_valid : Nat
  in_a_bits_opcode : Nat
  in_a_bits_param : Nat
  in_a_bits_size : Nat
  in_a_bits_source : Nat
  in_a_bits_address : Nat
  in_a_bits_mask : Nat
  in_a_bits_data : Nat
  in_a_bits_corrupt : Nat
  in_d_ready : Nat
deriving DecidableEq, Repr

/-- The harness `benchmarks/TLRAM/TLRAMStandalone.cpp`; the local variables
have the names of the ports; `w` gives the storage width in bits of each
port. -/
def bench (w : Inputs) : Bench Inputs Inputs where
  format := "%x %x %x %x %x %x %x %x %x %x %x\n".toList
  init := ⟨0, 0, 0, 0, 0, 0, 0, 0, 0, 0, 0⟩
  tick v := v
  store vals v :=
    { reset := vals.getD 0 v.reset
      in_a_valid := vals.getD 1 v.in_a_valid
      in_a_bits_opcode := vals.getD 2 v.in_a_bits_opcode
      in_a_bits_param := vals.getD 3 v.in_a_bits_param
      in_a_bits_size := vals.getD 4 v.in_a_bits_size
      in_a_bits_source := vals.getD 5 v.in_a_bits_source
      in_a_bits_address := vals.getD 6 v.in_a_bits_address
      in_a_bits_mask := vals.getD 7 v.in_a_bits_mask
      in_a_bits_data := vals.getD 8 v.in_a_bits_data
      in_a_bits_corrupt := vals.getD 9 v.in_a_bits_corrupt
      in_d_ready := vals.getD 10 v.in_d_ready }
  drive v :=
    { reset := trunc w.reset v.reset
      in_a_valid := trunc w.in_a_valid v.in_a_valid
      in_a_bits_opcode := trunc w.in_a_bits_opcode v.in_a_bits_opcode
      in_a_bits_param := trunc w.in_a_bits_param v.in_a_bits_param
      in_a_bits_size := trunc w.in_a_bits_size v.in_a_bits_size
      in_a_bits_source := trunc w.in_a_bits_source v.in_a_bits_source
      in_a_bits_address := trunc w.in_a_bits_address v.in_a_bits_address
      in_a_bits_mask := trunc w.in_a_bits_mask v.in_a_bits_mask
      in_a_bits_data := trunc w.in_a_bits_data v.in_a_bits_data
      in_a_bits_corrupt := trunc w.in_a_bits_corrupt v.in_a_bits_corrupt
      in_d_ready := trunc w.in_d_ready v.in_d_ready }
  written := ["reset", "in_a_valid", "in_a_bits_opcode", "in_a_bits_param",
    "in_a_bits_size", "in_a_bits_source", "in_a_bits_address", "in_a_bits_mask",
    "in_a_bits_data", "in_a_bits_corrupt", "in_d_ready"]

/-- The run of `main` up to the exit of its loop. -/
def main {σ : Type} (w : Inputs) (m : Model Inputs σ) (trace : Bool) (top0 : Top Inputs)
    (dev0 : σ) (content : List Char) (fuel : Nat) : Option (Sim (Replay Inputs) Inputs σ) :=
  replayMain (bench w) m trace top0 dev0 content fuel

/-- Each value of a record is below 2^32, what "%x" can store, and within
the storage width of its port. -/
def fits (w v : Inputs) : Prop :=
  (v.reset < 2 ^ 32 ∧ v.reset < 2 ^ w.reset) ∧
  (v.in_a_valid < 2 ^ 32 ∧ v.in_a_valid < 2 ^ w.in_a_valid) ∧
  (v.in_a_bits_opcode < 2 ^ 32 ∧ v.in_a_bits_opcode < 2 ^ w.in_a_bits_opcode) ∧
  (v.in_a_bits_param < 2 ^ 32 ∧ v.in_a_bits_param < 2 ^ w.in_a_bits_param) ∧
  (v.in_a_bits_size < 2 ^ 32 ∧ v.in_a_bits_size < 2 ^ w.in_a_bits_size) ∧
  (v.in_a_bits_source < 2 ^ 32 ∧ v.in_a_bits_source < 2 ^ w.in_a_bits_source) ∧
  (v.in_a_bits_address < 2 ^ 32 ∧ v.in_a_bits_address < 2 ^ w.in_a_bits_address) ∧
  (v.in_a_bits_mask < 2 ^ 32 ∧ v.in_a_bits_mask < 2 ^ w.in_a_bits_mask) ∧
  (v.in_a_bits_data < 2 ^ 32 ∧ v.in_a_bits_data < 2 ^ w.in_a_bits_data) ∧
  (v.in_a_bits_corrupt < 2 ^ 32 ∧ v.in_a_bits_corrupt < 2 ^ w.in_a_bits_corrupt) ∧
  (v.in_d_ready < 2 ^ 32 ∧ v.in_d_ready < 2 ^ w.in_d_ready)

instance (w v : Inputs) : Decidable (fits w v) := by
  unfold fits
  infer_instance

end TLRAM

namespace ServChisel

/-- Input ports of VServTopWithRam other than the clock. -/
structure Inputs where
  reset : Nat
  io_timerInterrupt : Nat
  io_ibus_rdt : Nat
  io_ibus_ack : Nat
  io_dbus_rdt : Nat
  io_dbus_ack : Nat
deriving DecidableEq, Repr

/-- The harness `benchmarks/serv-chisel/testbench.cc`; the local variables
have the names of the ports; `w` gives the storage width in bits of each
port. -/
def bench (w : Inputs) : Bench Inputs Inputs where
  format := "%x %x %x %x %x %x\n".toList
  init := ⟨0, 0, 0, 0, 0, 0⟩
  tick v := v
  store vals v :=
    { reset := vals.getD 0 v.reset
      io_timerInterrupt := vals.getD 1 v.io_timerInterrupt
      io_ibus_rdt := vals.getD 2 v.io_ibus_rdt
      io_ibus_ack := vals.getD 3 v.io_ibus_ack
      io_dbus_rdt := vals.getD 4 v.io_dbus_rdt
      io_dbus_ack := vals.getD 5 v.io_dbus_ack }
  drive v :=
    { reset := trunc w.reset v.reset
      io_timerInterrupt := trunc w.io_timerInterrupt v.io_timerInterrupt
      io_ibus_rdt := trunc w.io_ibus_rdt v.io_ibus_rdt
      io_ibus_ack := trunc w.io_ibus_ack v.io_ibus_ack
      io_dbus_rdt := trunc w.io_dbus_rdt v.io_dbus_rdt
      io_dbus_ack := trunc w.io_dbus_ack v.io_dbus_ack }
  written := ["reset", "io_timerInterrupt", "io_ibus_rdt", "io_ibus_ack",
    "io_dbus_rdt", "io_dbus_ack"]

/-- The run of `main` up to the exit of its loop. -/
def main {σ : Type} (w : Inputs) (m : Model Inputs σ) (trace : Bool) (top0 : Top Inputs)
    (dev0 : σ) (content : List Char) (fuel : Nat) : Option (Sim (Replay Inputs) Inputs σ) :=
  replayMain (bench w) m trace top0 dev0 content fuel

end ServChisel

/-- The three file-driven harnesses of the repository. -/
inductive FileBench where
  | neuromorphicProcessor
  | tlram
  | servChisel
deriving DecidableEq, Repr

/-- Input ports of a file-driven harness. -/
def FileBench.Inputs : FileBench → Type
  | FileBench.neuromorphicProcessor => NeuromorphicProcessor.Inputs
  | FileBench.tlram => TLRAM.Inputs
  | FileBench.servChisel => ServChisel.Inputs

/-- Local variables of a file-driven harness. -/
def FileBench.Vars : FileBench → Type
  | FileBench.neuromorphicProcessor => NeuromorphicProcessor.Vars
  | FileBench.tlram => TLRAM.Inputs
  | FileBench.servChisel => ServChisel.Inputs

/-- Number of fields of a stimulus record: the number of conversions in the
format of the harness. -/
def FileBench.width : FileBench → Nat
  | FileBench.neuromorphicProcessor => 2
  | FileBench.tlram => 11
  | FileBench.servChisel => 6

/-- The harness, given the storage widths of its ports. -/
def FileBench.bench : (k : FileBench) → k.Inputs → Bench k.Vars k.Inputs
  | FileBench.neuromorphicProcessor, w => NeuromorphicProcessor.bench w
  | FileBench.tlram, w => TLRAM.bench w
  | FileBench.servChisel, w => ServChisel.bench w

/-! ## The self-stimulating harness -/

namespace RiscvMini

/-- Input ports of VTileTester other than the clock. -/
structure Inputs where
  reset : Nat
deriving DecidableEq, Repr

/-- The global `main_time`; `main` has no local variable that changes. -/
structure Loc where
  main_time : Nat
deriving DecidableEq, Repr

/-- The loop condition `!Verilated::gotFinish()`. -/
def cond {σ : Type} (m : Model Inputs σ) (s : Sim Loc Inputs σ) : Bool :=
  !m.gotFinish s.dev

/-- One iteration of the loop of `benchmarks/riscv-mini/testbench.cc`.  The
loop has no call of `tfp->dump`, with or without VM_TRACE. -/
def body {σ : Type} (m : Model Inputs σ) (s : Sim Loc Inputs σ) : Sim Loc Inputs σ :=
  -- main_time++;
  let main_time := (s.loc.main_time + 1) % 2 ^ 64
  -- top->clock = !top->clock;
  let clock := !s.top.clock
  -- if (!top->clock) { if (main_time > 1 && main_time < 10) top->reset = 1; else top->reset = 0; }
  let reset :=
    if !clock then (if 1 < main_time && main_time < 10 then 1 else 0) else s.top.inp.reset
  let negedge : List (Event Inputs) := if !clock then [Event.write "reset"] else []
  -- top->eval();
  let top : Top Inputs := ⟨clock, ⟨reset⟩⟩
  let dev := m.eval top s.dev
  { top := top, dev := dev, loc := ⟨main_time⟩, pre := s.pre,
    hist := s.hist ++ [Event.clock clock :: negedge ++ [Event.eval top]] }

/-- The state at the head of the loop: `top->clock = 0; top->reset = 0;`. -/
def init {σ : Type} (dev0 : σ) : Sim Loc Inputs σ :=
  { top := ⟨false, ⟨0⟩⟩, dev := dev0, loc := ⟨0⟩,
    pre := [Event.clock false, Event.write "reset"], hist := [] }

/-- The run of `main` up to the exit of its loop. -/
def main {σ : Type} (m : Model Inputs σ) (dev0 : σ) (fuel : Nat) :
    Option (Sim Loc Inputs σ) :=
  whileLoop (cond m) (body m) fuel (init dev0)

/-- The first `n` iterations of the loop of `main`. -/
def run {σ : Type} (m : Model Inputs σ) (dev0 : σ) (n : Nat) : Sim Loc Inputs σ :=
  iterations (cond m) (body m) n (init dev0)

end RiscvMini

/-! ## The budget-limited harnesses -/

namespace BenchTop

/-- Input ports of the model other than the clock, as far as the harness
writes them. -/
structure Inputs where
  reset : Nat
deriving DecidableEq, Repr

/-- The global `main_time` and the local `count`. -/
structure Loc where
  main_time : Nat
  count : Nat
deriving DecidableEq, Repr

/-- The iteration budget of `benchmarks/top.cpp`. -/
def budget : Nat := 20000

/-- The loop condition `!Verilated::gotFinish() && count < 20000`. -/
def cond {σ : Type} (m : Model Inputs σ) (s : Sim Loc Inputs σ) : Bool :=
  !m.gotFinish s.dev && decide (s.loc.count < budget)

/-- One iteration of the loop of `benchmarks/top.cpp`; `trace` is VM_TRACE. -/
def body {σ : Type} (m : Model Inputs σ) (trace : Bool) (s : Sim Loc Inputs σ) :
    Sim Loc Inputs σ :=
  -- top->clock = !top->clock;
  let top : Top Inputs := ⟨!s.top.clock, s.top.inp⟩
  -- main_time++;
  let main_time := (s.loc.main_time + 1) % 2 ^ 64
  -- top->eval();
  let dev := m.eval top s.dev
  -- if (tfp) { tfp->dump(count); }
  let dumped : List (Event Inputs) := if trace then [Event.dump s.loc.count] else []
  -- count++;
  let count := (s.loc.count + 1) % 2 ^ 64
  { top := top, dev := dev, loc := ⟨main_time, count⟩, pre := s.pre,
    hist := s.hist ++ [Event.clock top.clock :: Event.eval top :: dumped] }

/-- The state at the head of the loop, after the two evaluations that `main`
makes before it. -/
def init {σ : Type} (m : Model Inputs σ) (dev0 : σ) : Sim Loc Inputs σ :=
  -- top->clock = 0; top->reset = 1; top->clock = !top->clock; main_time = 1;
  let top1 : Top Inputs := ⟨!false, ⟨1⟩⟩
  -- top->eval();
  let dev1 := m.eval top1 dev0
  -- top->clock = !top->clock; main_time = 2; top->reset = 0;
  let top2 : Top Inputs := ⟨!top1.clock, ⟨0⟩⟩
  -- top->eval();
  let dev2 := m.eval top2 dev1
  -- uint64_t count = 0;
  { top := top2, dev := dev2, loc := ⟨2, 0⟩,
    pre := [Event.clock false, Event.write "reset", Event.clock top1.clock, Event.eval top1,
      Event.clock top2.clock, Event.write "reset", Event.eval top2],
    hist := [] }

/-- The run of `main` up to the exit of its loop. -/
def main {σ : Type} (m : Model Inputs σ) (trace : Bool) (dev0 : σ) (fuel : Nat) :
    Option (Sim Loc Inputs σ) :=
  whileLoop (cond m) (body m trace) fuel (init m dev0)

/-- The first `n` iterations of the loop of `main`. -/
def run {σ : Type} (m : Model Inputs σ) (trace : Bool) (dev0 : σ) (n : Nat) :
    Sim Loc Inputs σ :=
  iterations (cond m) (body m trace) n (init m dev0)

end BenchTop

namespace UserCoverage

/-- Input ports of Vtest other than the clock. -/
structure Inputs where
  a : Nat
  b : Nat
deriving DecidableEq, Repr

/-- The local `count`; this harness has no `main_time`. -/
structure Loc where
  count : Nat
deriving DecidableEq, Repr

/-- The iteration budget of `verilator/user-coverage/top.cpp`. -/
def budget : Nat := 200

/-- The loop condition `!Verilated::gotFinish() && count < 200`. -/
def cond {σ : Type} (m : Model Inputs σ) (s : Sim Loc Inputs σ) : Bool :=
  !m.gotFinish s.dev && decide (s.loc.count < budget)

/-- One iteration of the loop of `verilator/user-coverage/top.cpp`; `trace`
is VM_TRACE. -/
def body {σ : Type} (m : Model Inputs σ) (trace : Bool) (s : Sim Loc Inputs σ) :
    Sim Loc Inputs σ :=
  -- top->clock = !top->clock;
  let top : Top Inputs := ⟨!s.top.clock, s.top.inp⟩
  -- top->eval();
  let dev := m.eval top s.dev
  -- if (tfp) { tfp->dump(count); }
  let dumped : List (Event Inputs) := if trace then [Event.dump s.loc.count] else []
  -- top->a = count % 8; top->b = (count + 3) % 8;
  let inp : Inputs := ⟨s.loc.count % 8, (s.loc.count + 3) % 2 ^ 64 % 8⟩
  -- count++;
  let count := (s.loc.count + 1) % 2 ^ 64
  { top := ⟨top.clock, inp⟩, dev := dev, loc := ⟨count⟩, pre := s.pre,
    hist := s.hist ++
      [Event.clock top.clock :: Event.eval top :: dumped ++ [Event.write "a", Event.write "b"]] }

/-- The state at the head of the loop: `top->clock = 0; top->a = 0; top->b = 0;`. -/
def init {σ : Type} (dev0 : σ) : Sim Loc Inputs σ :=
  { top := ⟨false, ⟨0, 0⟩⟩, dev := dev0, loc := ⟨0⟩,
    pre := [Event.clock false, Event.write "a", Event.write "b"], hist := [] }

/-- The run of `main` up to the exit of its loop. -/
def main {σ : Type} (m : Model Inputs σ) (trace : Bool) (dev0 : σ) (fuel : Nat) :
    Option (Sim Loc Inputs σ) :=
  whileLoop (cond m) (body m trace) fuel (init dev0)

/-- The first `n` iterations of the loop of `main`. -/
def run {σ : Type} (m : Model Inputs σ) (trace : Bool) (dev0 : σ) (n : Nat) :
    Sim Loc Inputs σ :=
  iterations (cond m) (body m trace) n (init dev0)

end UserCoverage

end Harness

namespace Harness

/-! ## Concrete inputs -/

/-- A field written as the given digits followed by the given white space. -/
def field (digits sep : String) : Field := ⟨digits.toList, sep.toList⟩

/-- A stimulus file of two records of two fields: "1 ff" and "0 1", one per
line. -/
def twoRecords : List (List Field) :=
  [[field "1" " ", field "ff" "\n"], [field "0" " ", field "1" "\n"]]

/-- Storage widths of the ports of the TileLink RAM: a byte for the narrow
ports, 32 bits for the address, 64 bits for the data. -/
def tlramWidths : TLRAM.Inputs := ⟨8, 8, 8, 8, 8, 8, 32, 8, 64, 8, 8⟩

/-- The ports of the TileLink RAM as the constructor leaves them. -/
def tlramZeroTop : Top TLRAM.Inputs := ⟨false, ⟨0, 0, 0, 0, 0, 0, 0, 0, 0, 0, 0⟩⟩

/-- A second record of the TileLink RAM stimulus, "1 0 0 0 0 0 0 0 0 0 0". -/
def tlramNext : List Field :=
  [field "1" " ", field "0" " ", field "0" " ", field "0" " ", field "0" " ", field "0" " ",
    field "0" " ", field "0" " ", field "0" " ", field "0" " ", field "0" "\n"]

/-- A first record of the TileLink RAM stimulus,
"0 1 4 0 2 1f 80001000 f deadbeef 0 1". -/
def tlramFirst : List Field :=
  [field "0" " ", field "1" " ", field "4" " ", field "0" " ", field "2" " ",
    field "1f" " ", field "80001000" " ", field "f" " ", field "deadbeef" " ",
    field "0" " ", field "1" "\n"]

/-- A stimulus file of the two records `tlramFirst` and `tlramNext`. -/
def tlramFile : List Char := fileText ([] ++ tlramFirst :: [tlramNext])

/-- The first `n` iterations of the TLRAM harness on `tlramFile` with a
device that does nothing. -/
def tlramRun (n : Nat) : Sim (Replay TLRAM.Inputs) TLRAM.Inputs Unit :=
  replayRun (TLRAM.bench tlramWidths) (quiet TLRAM.Inputs) false tlramZeroTop () tlramFile n

/-- The values of the record "0 1 4 0 2 1f 80001000 f deadbeef 0 1". -/
def tlramRecord : TLRAM.Inputs :=
  { reset := 0, in_a_valid := 1, in_a_bits_opcode := 4, in_a_bits_param := 0,
    in_a_bits_size := 2, in_a_bits_source := 0x1f, in_a_bits_address := 0x80001000,
    in_a_bits_mask := 0xf, in_a_bits_data := 0xdeadbeef, in_a_bits_corrupt := 0,
    in_d_ready := 1 }

/-- Storage widths of the ports of the neuromorphic processor: one byte each. -/
def byteWide : NeuromorphicProcessor.Inputs := ⟨8, 8⟩

/-- The ports of the neuromorphic processor as the constructor leaves them. -/
def zeroTop : Top NeuromorphicProcessor.Inputs := ⟨false, ⟨0, 0⟩⟩

end Harness

/-! # Theorems -/

namespace Harness

/-! ## The loop -/

theorem iterations_of_not_cond {S : Type} (cond : S → Bool) (body : S → S) (n : Nat) (s : S)
    (h : cond s = false) : iterations cond body n s = s := by
  cases n <;> simp [iterations, h]

theorem iterations_add {S : Type} (cond : S → Bool) (body : S → S) (a b : Nat) (s : S) :
    iterations cond body (a + b) s = iterations cond body b (iterations cond body a s) := by
  induction a generalizing s with
  | zero => simp [iterations]
  | succ a ih =>
    rw [Nat.succ_add]
    by_cases h : cond s = true
    · simp [iterations, h, ih]
    · have h0 : cond s = false := by simpa using h
      simp [iterations, h0, iterations_of_not_cond cond body b s h0]

theorem iterations_succ {S : Type} (cond : S → Bool) (body : S → S) (n : Nat) (s : S) :
    iterations cond body (n + 1) s =
      if cond (iterations cond body n s) then body (iterations cond body n s)
      else iterations cond body n s := by
  rw [iterations_add]
  simp [iterations]

theorem iterations_invariant {S : Type} (cond : S → Bool) (body : S → S) (P : S → Prop)
    (step : ∀ s, P s → cond s = true → P (body s)) (n : Nat) (s : S) (h : P s) :
    P (iterations cond body n s) := by
  induction n generalizing s with
  | zero => simpa [iterations] using h
  | succ n ih =>
    by_cases hc : cond s = true
    · simpa [iterations, hc] using ih (body s) (step s h hc)
    · have h0 : cond s = false := by simpa using hc
      simpa [iterations, h0] using h

theorem whileLoop_of_exit {S : Type} (cond : S → Bool) (body : S → S) (n : Nat) (s : S)
    (h : cond (iterations cond body n s) = false) :
    whileLoop cond body (n + 1) s = some (iterations cond body n s) := by
  induction n generalizing s with
  | zero =>
    have h0 : cond s = false := by simpa [iterations] using h
    simp [whileLoop, iterations, h0]
  | succ n ih =>
    by_cases hc : cond s = true
    · have h1 : cond (iterations cond body n (body s)) = false := by
        simpa [iterations, hc] using h
      rw [whileLoop]
      simp [hc, iterations, ih (body s) h1]
    · have h0 : cond s = false := by simpa using hc
      simp [whileLoop, iterations, h0]

theorem whileLoop_eq_some {S : Type} (cond : S → Bool) (body : S → S) (fuel : Nat) (s r : S)
    (h : whileLoop cond body fuel s = some r) :
    r = iterations cond body fuel s ∧ cond r = false := by
  induction fuel generalizing s with
  | zero => simp [whileLoop] at h
  | succ n ih =>
    by_cases hc : cond s = true
    · rw [whileLoop] at h
      simp only [hc, if_true] at h
      have := ih (body s) h
      simpa [iterations, hc] using this
    · have h0 : cond s = false := by simpa using hc
      rw [whileLoop] at h
      simp only [h0] at h
      simp at h
      subst h
      simp [iterations_of_not_cond, h0]

/-- When the loop condition fails after `k` iterations, the loop has exited:
more iterations change nothing and `whileLoop` returns that state. -/
theorem loop_exited {S : Type} (cond : S → Bool) (body : S → S) (k n : Nat) (s : S)
    (h : cond (iterations cond body k s) = false) :
    iterations cond body (k + n) s = iterations cond body k s ∧
      whileLoop cond body (k + 1) s = some (iterations cond body k s) :=
  ⟨by rw [iterations_add, iterations_of_not_cond cond body n _ h], whileLoop_of_exit cond body k s h⟩

/-! ## Reading the history -/

theorem evals_append {I : Type} (a b : List (Event I)) : evals (a ++ b) = evals a ++ evals b := by
  induction a with
  | nil => rfl
  | cons e a ih => cases e <;> simp [evals, ih]

theorem reads_append {I : Type} (a b : List (Event I)) : reads (a ++ b) = reads a ++ reads b := by
  induction a with
  | nil => rfl
  | cons e a ih => cases e <;> simp [reads, ih]

theorem writes_append {I : Type} (a b : List (Event I)) :
    writes (a ++ b) = writes a ++ writes b := by
  induction a with
  | nil => rfl
  | cons e a ih => cases e <;> simp [writes, ih]

theorem stamps_append {I : Type} (a b : List (Event I)) :
    stamps (a ++ b) = stamps a ++ stamps b := by
  induction a with
  | nil => rfl
  | cons e a ih => cases e <;> simp [stamps, ih]

theorem clocksWritten_append {I : Type} (a b : List (Event I)) :
    clocksWritten (a ++ b) = clocksWritten a ++ clocksWritten b := by
  induction a with
  | nil => rfl
  | cons e a ih => cases e <;> simp [clocksWritten, ih]

theorem reads_map_write {I : Type} (ps : List String) :
    reads (ps.map (Event.write : String → Event I)) = [] := by
  induction ps with
  | nil => rfl
  | cons p ps ih => simp [reads, ih]

theorem evals_map_write {I : Type} (ps : List String) :
    evals (ps.map (Event.write : String → Event I)) = [] := by
  induction ps with
  | nil => rfl
  | cons p ps ih => simp [evals, ih]

theorem stamps_map_write {I : Type} (ps : List String) :
    stamps (ps.map (Event.write : String → Event I)) = [] := by
  induction ps with
  | nil => rfl
  | cons p ps ih => simp [stamps, ih]

theorem clocksWritten_map_write {I : Type} (ps : List String) :
    clocksWritten (ps.map (Event.write : String → Event I)) = [] := by
  induction ps with
  | nil => rfl
  | cons p ps ih => simp [clocksWritten, ih]

theorem alternates_append_singleton (l : List Bool) (c : Bool) :
    alternates (l ++ [c]) = (alternates l && (l.getLast?.all fun a => c == !a)) := by
  induction l with
  | nil => simp [alternates]
  | cons a l ih =>
    cases l with
    | nil => simp [alternates]
    | cons b l =>
      have ih2 : alternates (b :: (l ++ [c])) =
          (alternates (b :: l) && ((b :: l).getLast?.all fun a => c == !a)) := by
        simpa using ih
      show ((b == !a) && alternates (b :: (l ++ [c]))) = _
      rw [ih2]
      simp [alternates, List.getLast?_cons_cons, Bool.and_assoc]

/-! ## Scanning well-formed fields -/

theorem not_isxdigit_of_isspace (c : Char) (h : isspace c = true) : isxdigit c = false := by
  simp only [isspace, Bool.or_eq_true, beq_iff_eq] at h
  rcases h with ((((h | h) | h) | h) | h) | h <;> subst h <;> decide

theorem not_isspace_of_isxdigit (c : Char) (h : isxdigit c = true) : isspace c = false := by
  cases hs : isspace c with
  | false => rfl
  | true => rw [not_isxdigit_of_isspace c hs] at h; cases h

theorem dropWhile_eq_self_of_head {p : Char → Bool} (l : List Char)
    (h : ∀ c ∈ l.head?, p c = false) : l.dropWhile p = l := by
  cases l with
  | nil => rfl
  | cons c l => simp [List.dropWhile, h c (by simp)]

theorem takeWhile_eq_nil_of_head {p : Char → Bool} (l : List Char)
    (h : ∀ c ∈ l.head?, p c = false) : l.takeWhile p = [] := by
  cases l with
  | nil => rfl
  | cons c l => simp [List.takeWhile, h c (by simp)]

/-- The text of well-formed fields starts with a hexadecimal digit. -/
theorem fieldsText_head (ts : List Field) (h : wellFormed ts = true) (hne : ts ≠ []) :
    ∃ c rest, fieldsText ts = c :: rest ∧ isxdigit c = true := by
  cases ts with
  | nil => exact absurd rfl hne
  | cons t ts =>
    have hok : t.ok = true := by
      cases ts with
      | nil => simpa [wellFormed] using h
      | cons u us =>
        simp only [wellFormed, Bool.and_eq_true] at h
        exact h.1.1
    simp only [Field.ok, Bool.and_eq_true, Bool.not_eq_true', List.all_eq_true] at hok
    obtain ⟨⟨hd, hx⟩, _⟩ := hok
    cases hds : t.digits with
    | nil => simp [hds] at hd
    | cons c cs =>
      refine ⟨c, cs ++ t.sep ++ fieldsText ts, ?_, hx c (by simp [hds])⟩
      simp [fieldsText, Field.text, hds]

theorem wellFormed_cons (t : Field) (ts : List Field) (h : wellFormed (t :: ts) = true) :
    t.ok = true ∧ wellFormed ts = true ∧ (ts ≠ [] → t.sep ≠ []) := by
  cases ts with
  | nil => simpa [wellFormed] using h
  | cons u us =>
    simp only [wellFormed, Bool.and_eq_true, Bool.not_eq_true', List.isEmpty_eq_false] at h
    refine ⟨h.1.1, ?_, fun _ => ?_⟩
    · simpa [wellFormed] using h.2
    · intro hs
      simp [hs] at h

theorem wellFormed_append_right (r rest : List Field) (h : wellFormed (r ++ rest) = true) :
    wellFormed rest = true := by
  induction r with
  | nil => simpa using h
  | cons t r ih => exact ih (wellFormed_cons t (r ++ rest) h).2.1

/-- The conversion "%x" followed by white space in the format consumes
exactly one well-formed field and yields its value; the end-of-file indicator
is set exactly when that field was the last of the file. -/
theorem scan_field (t : Field) (ts : List Field) (e : Bool)
    (h : wellFormed (t :: ts) = true) :
    scanHex ⟨fieldsText (t :: ts), e⟩ =
        (⟨t.sep ++ fieldsText ts, e || (t.sep ++ fieldsText ts).isEmpty⟩,
          some (t.val % 2 ^ 32)) ∧
      scanSpace ⟨t.sep ++ fieldsText ts, e || (t.sep ++ fieldsText ts).isEmpty⟩ =
        ⟨fieldsText ts, e || ts.isEmpty⟩ := by
  obtain ⟨hok, hts, hsep⟩ := wellFormed_cons t ts h
  simp only [Field.ok, Bool.and_eq_true, Bool.not_eq_true', List.all_eq_true] at hok
  obtain ⟨⟨hd, hx⟩, hs⟩ := hok
  have htext : fieldsText (t :: ts) = t.digits ++ (t.sep ++ fieldsText ts) := by
    simp [fieldsText, Field.text]
  -- what follows the digits does not start with a digit
  have hrest : ∀ c ∈ (t.sep ++ fieldsText ts).head?, isxdigit c = false := by
    intro c hc
    cases hsp : t.sep with
    | nil =>
      have : ts = [] := by
        by_contra hne
        exact hsep hne hsp
      subst this
      simp [hsp, fieldsText] at hc
    | cons d ds =>
      simp [hsp] at hc
      subst hc
      exact not_isxdigit_of_isspace _ (hs _ (by simp [hsp]))
  -- the digits do not start with white space
  have hdig : ∀ c ∈ (t.digits ++ (t.sep ++ fieldsText ts)).head?, isspace c = false := by
    intro c hc
    cases hds : t.digits with
    | nil => simp [hds] at hd
    | cons d ds =>
      simp [hds] at hc
      subst hc
      exact not_isspace_of_isxdigit _ (hx _ (by simp [hds]))
  have hne : (t.digits ++ (t.sep ++ fieldsText ts)).isEmpty = false := by
    cases hds : t.digits with
    | nil => simp [hds] at hd
    | cons d ds => simp
  have hxd : ∀ a ∈ t.digits, isxdigit a = true := hx
  constructor
  · simp only [scanHex, scanSpace, htext, dropWhile_eq_self_of_head _ hdig, hne, Bool.or_false]
    rw [List.takeWhile_append_of_pos hxd, List.dropWhile_append_of_pos hxd,
      takeWhile_eq_nil_of_head _ hrest, dropWhile_eq_self_of_head _ hrest]
    simp [hd, Field.val]
  · have hsd : ∀ a ∈ t.sep, isspace a = true := hs
    simp only [scanSpace]
    rw [List.dropWhile_append_of_pos hsd]
    by_cases hne2 : ts = []
    · subst hne2
      simp [fieldsText]
    · obtain ⟨c, rest, hcr, hcx⟩ := fieldsText_head ts hts hne2
      have : ∀ c ∈ (fieldsText ts).head?, isspace c = false := by
        intro c2 hc2
        simp [hcr] at hc2
        subst hc2
        exact not_isspace_of_isxdigit _ hcx
      rw [dropWhile_eq_self_of_head _ this]
      have hsne : t.sep ≠ [] := hsep hne2
      cases hsp : t.sep with
      | nil => exact absurd hsp hsne
      | cons d ds =>
        cases ts with
        | nil => exact absurd rfl hne2
        | cons u us => simp [hcr]

/-- A call of fscanf with a format of `r.length` conversions on a stream that
starts with the well-formed record `r`: the record is consumed, all its fields
are converted in order, and the end-of-file indicator is set exactly when
nothing follows the record. -/
theorem fscanf_record (r rest : List Field) (e : Bool)
    (h : wellFormed (r ++ rest) = true) :
    fscanf (hexFields r.length) ⟨fieldsText (r ++ rest), e⟩ =
      (⟨fieldsText rest, e || (!r.isEmpty && rest.isEmpty)⟩,
        r.map fun t => t.val % 2 ^ 32) := by
  induction r generalizing e with
  | nil => simp [hexFields, fscanf]
  | cons t r ih =>
    obtain ⟨h1, h2⟩ := scan_field t (r ++ rest) e h
    have hw := (wellFormed_cons t (r ++ rest) h).2.1
    have hf : hexFields (t :: r).length =
        Directive.hex :: Directive.space :: hexFields r.length := by
      simp [hexFields, List.replicate_succ]
    rw [hf, List.cons_append]
    simp only [fscanf, h1, h2, ih _ hw]
    cases r with
    | nil => simp
    | cons u us => simp

/-! ## The file-driven loop -/

section Replay

variable {V I σ : Type} (b : Bench V I) (m : Model I σ) (trace : Bool)

theorem replayBody_clock (s : Sim (Replay V) I σ) :
    (replayBody b m trace s).top.clock = !s.top.clock := rfl

theorem replayBody_dev (s : Sim (Replay V) I σ) :
    (replayBody b m trace s).dev = m.eval (replayBody b m trace s).top s.dev := rfl

/-- An iteration that starts with the clock low: the clock goes high, the
file, the variables and the inputs stay as they are. -/
theorem replayBody_posedge (s : Sim (Replay V) I σ) (h : s.top.clock = false) :
    replayBody b m trace s =
      { top := ⟨true, s.top.inp⟩, dev := m.eval ⟨true, s.top.inp⟩ s.dev,
        loc := ⟨(s.loc.main_time + 1) % 2 ^ 64, s.loc.vars, s.loc.pFile⟩, pre := s.pre,
        hist := s.hist ++ [Event.clock true :: Event.eval ⟨true, s.top.inp⟩ ::
          (if trace then [Event.dump ((s.loc.main_time + 1) % 2 ^ 64)] else [])] } := by
  simp [replayBody, h]

/-- An iteration that starts with the clock high: the clock goes low, one
fscanf call is made, the variables are written to the inputs. -/
theorem replayBody_negedge (s : Sim (Replay V) I σ) (h : s.top.clock = true) :
    replayBody b m trace s =
      { top := ⟨false, b.drive (b.store (fscanf (directives b.format) s.loc.pFile).2
            (b.tick s.loc.vars))⟩,
        dev := m.eval ⟨false, b.drive (b.store (fscanf (directives b.format) s.loc.pFile).2
            (b.tick s.loc.vars))⟩ s.dev,
        loc := ⟨(s.loc.main_time + 1) % 2 ^ 64,
          b.store (fscanf (directives b.format) s.loc.pFile).2 (b.tick s.loc.vars),
          (fscanf (directives b.format) s.loc.pFile).1⟩,
        pre := s.pre,
        hist := s.hist ++ [Event.clock false ::
          (Event.read (fscanf (directives b.format) s.loc.pFile).2.length ::
            b.written.map Event.write) ++
          Event.eval ⟨false, b.drive (b.store (fscanf (directives b.format) s.loc.pFile).2
            (b.tick s.loc.vars))⟩ ::
          (if trace then [Event.dump ((s.loc.main_time + 1) % 2 ^ 64)] else [])] } := by
  simp [replayBody, h]

theorem writes_map_write (ps : List String) :
    writes (ps.map (Event.write : String → Event I)) = ps := by
  induction ps with
  | nil => rfl
  | cons p ps ih => simp [writes, ih]

theorem replayBody_shape (s : Sim (Replay V) I σ) :
    ∃ it, (replayBody b m trace s).hist = s.hist ++ [it] ∧ IterShape b it := by
  cases h : s.top.clock with
  | false =>
    rw [replayBody_posedge b m trace s h]
    refine ⟨_, rfl, ?_⟩
    cases trace <;> simp [IterShape, evals, clocksWritten, reads, writes]
  | true =>
    rw [replayBody_negedge b m trace s h]
    refine ⟨_, rfl, ?_⟩
    cases trace <;>
      simp [IterShape, evals, clocksWritten, reads, writes, evals_append, reads_append,
        writes_append, clocksWritten_append, evals_map_write, reads_map_write,
        writes_map_write, clocksWritten_map_write]

/-- Every iteration of a file-driven loop has the shape `IterShape`. -/
theorem replayRun_shape (top0 : Top I) (dev0 : σ) (content : List Char) (n : Nat) :
    ∀ it ∈ (replayRun b m trace top0 dev0 content n).hist, IterShape b it := by
  apply iterations_invariant (replayCond m) (replayBody b m trace)
    (fun s => ∀ it ∈ s.hist, IterShape b it)
  · intro s hs _ it hit
    obtain ⟨it2, h2, hshape⟩ := replayBody_shape b m trace s
    rw [h2] at hit
    rcases List.mem_append.mp hit with h | h
    · exact hs it h
    · simp at h
      subst h
      exact hshape
  · intro it hit
    simp [replayInit] at hit

/-- With tracing, the iterations of a file-driven loop each take one
waveform sample, stamped with the time counter of the iteration. -/
theorem replayRun_stamps (top0 : Top I) (dev0 : σ) (content : List Char) (n : Nat) :
    (replayRun b m true top0 dev0 content n).loc.main_time =
        (replayRun b m true top0 dev0 content n).hist.length % 2 ^ 64 ∧
      (replayRun b m true top0 dev0 content n).hist.map stamps =
        (List.range (replayRun b m true top0 dev0 content n).hist.length).map
          fun i => [(i + 1) % 2 ^ 64] := by
  apply iterations_invariant (replayCond m) (replayBody b m true)
    (fun s => s.loc.main_time = s.hist.length % 2 ^ 64 ∧
      s.hist.map stamps = (List.range s.hist.length).map fun i => [(i + 1) % 2 ^ 64])
  · intro s ⟨h1, h2⟩ _
    cases h : s.top.clock with
    | false =>
      rw [replayBody_posedge b m true s h]
      simp [h1, h2, List.range_succ, stamps]
    | true =>
      rw [replayBody_negedge b m true s h]
      simp [h1, h2, List.range_succ, stamps, stamps_append, stamps_map_write]
  · simp [replayInit]

theorem reads_flatten_append_singleton (h : List (List (Event I))) (it : List (Event I)) :
    reads (h ++ [it]).flatten = reads h.flatten ++ reads it := by
  simp [reads_append]

/-- On a file of at least one well-formed record every fscanf call of the
run converts a complete record, whatever the device does and whatever the
clock is at the start. -/
theorem replayRun_reads_complete (width : Nat) (hw : 0 < width)
    (hfmt : directives b.format = hexFields width)
    (top0 : Top I) (dev0 : σ) (recs : List (List Field)) (hne : recs ≠ [])
    (hwf : wellFormedRecords width recs) (n : Nat) :
    ∀ k ∈ reads (replayRun b m trace top0 dev0 (fileText recs) n).hist.flatten, k = width := by
  refine (iterations_invariant (replayCond m) (replayBody b m trace)
    (fun s => (∀ k ∈ reads s.hist.flatten, k = width) ∧
      (s.loc.pFile.eof = false → ∃ (r : List Field) (rest : List (List Field)),
        r.length = width ∧ (∀ q ∈ rest, q.length = width) ∧
        wellFormed (r ++ rest.flatten) = true ∧
        s.loc.pFile = ⟨fieldsText (r ++ rest.flatten), false⟩)) ?_ n _ ?_).1
  · intro s ⟨hreads, hfile⟩ hcond
    have heof : s.loc.pFile.eof = false := by
      simp only [replayCond, feof, Bool.and_eq_true, Bool.not_eq_true'] at hcond
      exact hcond.2
    obtain ⟨r, rest, hr, hrest, hwf2, hbuf⟩ := hfile heof
    cases h : s.top.clock with
    | false =>
      rw [replayBody_posedge b m trace s h]
      refine ⟨?_, fun _ => ⟨r, rest, hr, hrest, hwf2, hbuf⟩⟩
      intro k hk
      rw [reads_flatten_append_singleton] at hk
      cases trace <;> simp [reads] at hk <;> exact hreads k hk
    | true =>
      rw [replayBody_negedge b m trace s h]
      have hscan := fscanf_record r rest.flatten false hwf2
      rw [hr, ← hfmt, ← hbuf] at hscan
      constructor
      · intro k hk
        rw [reads_flatten_append_singleton] at hk
        have : k ∈ reads s.hist.flatten ∨ k = width := by
          cases trace <;>
            simpa [reads, reads_append, reads_map_write, hscan, hr] using hk
        rcases this with h1 | h1
        · exact hreads k h1
        · exact h1
      · intro he
        simp only [hscan] at he ⊢
        have hrne : r ≠ [] := by
          intro h0
          rw [h0] at hr
          simp at hr
          omega
        have hfl : rest.flatten ≠ [] := by
          intro h0
          simp [h0, hrne] at he
        cases rest with
        | nil => simp at hfl
        | cons r2 rest2 =>
          refine ⟨r2, rest2, hrest r2 (by simp), fun q hq => hrest q (by simp [hq]), ?_, ?_⟩
          · simpa using wellFormed_append_right r _ hwf2
          · have h2 : ((r2 :: rest2).flatten).isEmpty = false := by
              cases hh : (r2 :: rest2).flatten with
              | nil => exact absurd hh hfl
              | cons c cs => rfl
            simp only [h2, Bool.and_false, Bool.or_false]
            simp
  · refine ⟨by simp [replayInit, reads], fun _ => ?_⟩
    cases recs with
    | nil => exact absurd rfl hne
    | cons r rest =>
      refine ⟨r, rest, hwf.1 r (by simp), fun q hq => hwf.1 q (by simp [hq]), ?_, ?_⟩
      · simpa using hwf.2
      · simp [replayInit, fopen, fileText]

/-- One clock period of a file-driven loop, from a state with the clock low
and the file at the start of a well-formed record: two iterations, the
second of which reads the record. -/
theorem replay_period (width : Nat) (hfmt : directives b.format = hexFields width)
    (hfin : ∀ p d, m.gotFinish (m.eval p d) = false)
    (r rest : List Field) (hr : r.length = width) (hwf : wellFormed (r ++ rest) = true)
    (s : Sim (Replay V) I σ) (hclk : s.top.clock = false)
    (hfile : s.loc.pFile = ⟨fieldsText (r ++ rest), false⟩)
    (hdev : m.gotFinish s.dev = false) :
    iterations (replayCond m) (replayBody b m trace) 2 s =
        replayBody b m trace (replayBody b m trace s) ∧
      m.gotFinish (replayBody b m trace (replayBody b m trace s)).dev = false ∧
      (replayBody b m trace (replayBody b m trace s)).top.clock = false ∧
      (replayBody b m trace (replayBody b m trace s)).top.inp =
        b.drive (replayBody b m trace (replayBody b m trace s)).loc.vars ∧
      (replayBody b m trace (replayBody b m trace s)).loc.vars =
        b.store (r.map fun t => t.val % 2 ^ 32) (b.tick s.loc.vars) ∧
      (replayBody b m trace (replayBody b m trace s)).loc.pFile =
        ⟨fieldsText rest, !r.isEmpty && rest.isEmpty⟩ ∧
      (replayBody b m trace (replayBody b m trace s)).loc.main_time =
        (s.loc.main_time + 2) % 2 ^ 64 ∧
      (replayBody b m trace (replayBody b m trace s)).hist.length = s.hist.length + 2 ∧
      reads (replayBody b m trace (replayBody b m trace s)).hist.flatten =
        reads s.hist.flatten ++ [width] ∧
      (evals (replayBody b m trace (replayBody b m trace s)).hist.flatten).length =
        (evals s.hist.flatten).length + 2 ∧
      (replayBody b m trace (replayBody b m trace s)).pre = s.pre := by
  have hc0 : replayCond m s = true := by simp [replayCond, feof, hdev, hfile]
  have h1clk : (replayBody b m trace s).top.clock = true := by
    simp [replayBody_clock, hclk]
  have h1file : (replayBody b m trace s).loc.pFile = ⟨fieldsText (r ++ rest), false⟩ := by
    rw [replayBody_posedge b m trace s hclk]
    exact hfile
  have hc1 : replayCond m (replayBody b m trace s) = true := by
    simp [replayCond, feof, h1file, replayBody_dev, hfin]
  have hscan := fscanf_record r rest false hwf
  rw [hr, ← hfmt, ← h1file] at hscan
  refine ⟨by simp [iterations, hc0, hc1], ?_⟩
  rw [replayBody_negedge b m trace _ h1clk, hscan]
  rw [replayBody_posedge b m trace s hclk]
  refine ⟨hfin _ _, rfl, rfl, rfl, by simp, ?_, by simp, ?_, ?_, rfl⟩
  · show ((s.loc.main_time + 1) % 2 ^ 64 + 1) % 2 ^ 64 = (s.loc.main_time + 2) % 2 ^ 64
    omega
  · cases trace <;>
      simp [reads, reads_append, reads_map_write, hr]
  · cases trace <;>
      simp [evals, evals_append, evals_map_write]

/-- The run of a file-driven loop over a file of well-formed records, from
a state with the clock low: two iterations for each record, then the loop
condition fails with the end-of-file indicator set. -/
theorem replay_records (width : Nat) (hw : 0 < width)
    (hfmt : directives b.format = hexFields width)
    (hfin : ∀ p d, m.gotFinish (m.eval p d) = false)
    (recs : List (List Field)) (r : List Field)
    (hall : ∀ q ∈ r :: recs, q.length = width)
    (hwf : wellFormed (r :: recs).flatten = true)
    (s : Sim (Replay V) I σ) (hclk : s.top.clock = false)
    (hfile : s.loc.pFile = ⟨fieldsText (r :: recs).flatten, false⟩)
    (hdev : m.gotFinish s.dev = false) :
    replayCond m (iterations (replayCond m) (replayBody b m trace) (2 * (recs.length + 1)) s)
        = false ∧
      (iterations (replayCond m) (replayBody b m trace) (2 * (recs.length + 1)) s).loc.pFile
        = ⟨[], true⟩ ∧
      (iterations (replayCond m) (replayBody b m trace) (2 * (recs.length + 1)) s).top.clock
        = false ∧
      (iterations (replayCond m) (replayBody b m trace) (2 * (recs.length + 1)) s).top.inp
        = b.drive
          (iterations (replayCond m) (replayBody b m trace) (2 * (recs.length + 1)) s).loc.vars ∧
      (iterations (replayCond m) (replayBody b m trace) (2 * (recs.length + 1)) s).loc.vars
        = (r :: recs).foldl
          (fun v q => b.store (q.map fun t => t.val % 2 ^ 32) (b.tick v)) s.loc.vars ∧
      (iterations (replayCond m) (replayBody b m trace) (2 * (recs.length + 1)) s).loc.main_time
        = (s.loc.main_time + 2 * (recs.length + 1)) % 2 ^ 64 ∧
      (iterations (replayCond m) (replayBody b m trace) (2 * (recs.length + 1)) s).hist.length
        = s.hist.length + 2 * (recs.length + 1) ∧
      reads (iterations (replayCond m) (replayBody b m trace)
          (2 * (recs.length + 1)) s).hist.flatten
        = reads s.hist.flatten ++ List.replicate (recs.length + 1) width ∧
      (evals (iterations (replayCond m) (replayBody b m trace)
          (2 * (recs.length + 1)) s).hist.flatten).length
        = (evals s.hist.flatten).length + 2 * (recs.length + 1) ∧
      (iterations (replayCond m) (replayBody b m trace) (2 * (recs.length + 1)) s).pre
        = s.pre := by
  induction recs generalizing r s with
  | nil =>
    have hr : r.length = width := hall r (by simp)
    have hrne : r.isEmpty = false := by
      cases r with
      | nil => simp at hr; omega
      | cons t ts => rfl
    obtain ⟨h2, hd, hc, hi, hv, hf, ht, hl, hrd, hev, hp⟩ :=
      replay_period b m trace width hfmt hfin r [] hr (by simpa using hwf) s hclk
        (by simpa using hfile) hdev
    simp only [List.length_nil, Nat.zero_add, Nat.mul_one]
    rw [h2]
    simp only [hrne, fieldsText, List.map_nil, List.flatten_nil, List.isEmpty_nil,
      Bool.not_false, Bool.and_self] at hf
    refine ⟨by simp [replayCond, feof, hf], hf, hc, hi, ?_, ht, hl, ?_, hev, hp⟩
    · simpa using hv
    · simpa using hrd
  | cons r2 recs ih =>
    have hr : r.length = width := hall r (by simp)
    have hr2 : r2.length = width := hall r2 (by simp)
    have hfl : (r2 :: recs).flatten.isEmpty = false := by
      cases r2 with
      | nil => simp at hr2; omega
      | cons t ts => rfl
    have hwf1 : wellFormed (r ++ (r2 :: recs).flatten) = true := by simpa using hwf
    obtain ⟨h2, hd, hc, hi, hv, hf, ht, hl, hrd, hev, hp⟩ :=
      replay_period b m trace width hfmt hfin r (r2 :: recs).flatten hr hwf1 s hclk
        (by simpa using hfile) hdev
    simp only [hfl, Bool.and_false] at hf
    have hsplit : 2 * ((r2 :: recs).length + 1) = 2 + 2 * (recs.length + 1) := by
      simp only [List.length_cons]; omega
    rw [hsplit, iterations_add, h2]
    obtain ⟨g1, g2, g3, g4, g5, g6, g7, g8, g9, g10⟩ :=
      ih r2 (fun q hq => hall q (by simp [List.mem_cons] at hq ⊢; tauto))
        (wellFormed_append_right r _ hwf1) _ hc hf hd
    refine ⟨g1, g2, g3, g4, ?_, ?_, ?_, ?_, ?_, ?_⟩
    · rw [g5, hv]; rfl
    · rw [g6, ht]; omega
    · rw [g7, hl]; omega
    · rw [g8, hrd]
      simp [List.replicate_succ]
    · rw [g9, hev]; omega
    · rw [g10, hp]

end Replay

/-! ## The three file-driven harnesses -/

theorem FileBench.format_eq (k : FileBench) (w : k.Inputs) :
    directives (k.bench w).format = hexFields k.width := by
  cases k <;> rfl

theorem FileBench.width_pos (k : FileBench) : 0 < k.width := by
  cases k <;> decide

/-! ## Alternation of the clock -/

/-- An iteration that flips the clock and makes one eval call with the
flipped clock keeps `ClockInv`. -/
theorem clockInv_step {L I σ : Type} (s t : Sim L I σ) (it : List (Event I)) (p : Top I)
    (h : ClockInv s) (hpre : t.pre = s.pre) (hhist : t.hist = s.hist ++ [it])
    (hev : evals it = [p]) (hp : p.clock = !s.top.clock) (ht : t.top.clock = !s.top.clock) :
    ClockInv t := by
  have heq : t.evalClocks = s.evalClocks ++ [!s.top.clock] := by
    simp [Sim.evalClocks, Sim.events, hpre, hhist, evals_append, hev, hp]
  obtain ⟨h1, h2⟩ := h
  refine ⟨?_, ?_⟩
  · rw [heq, alternates_append_singleton, h1]
    cases hl : s.evalClocks.getLast? with
    | none => simp
    | some a =>
      have := h2 a (by simp [hl])
      simp [this]
  · intro c hc
    rw [heq] at hc
    have hc2 : (!s.top.clock) = c := by simpa using hc
    rw [ht, hc2]

theorem replay_clockInv {V I σ : Type} (b : Bench V I) (m : Model I σ) (trace : Bool)
    (top0 : Top I) (dev0 : σ) (content : List Char) (n : Nat) :
    ClockInv (replayRun b m trace top0 dev0 content n) := by
  apply iterations_invariant (replayCond m) (replayBody b m trace) ClockInv
  · intro s hs _
    cases h : s.top.clock with
    | false =>
      refine clockInv_step s _ _ ⟨true, s.top.inp⟩ hs rfl
        (congrArg Sim.hist (replayBody_posedge b m trace s h)) ?_ (by simp [h])
        (by simp [replayBody_clock, h])
      cases trace <;> simp [evals]
    | true =>
      refine clockInv_step s _ _
        ⟨false, b.drive (b.store (fscanf (directives b.format) s.loc.pFile).2
            (b.tick s.loc.vars))⟩ hs rfl
        (congrArg Sim.hist (replayBody_negedge b m trace s h)) ?_ (by simp [h])
        (by simp [replayBody_clock, h])
      cases trace <;> simp [evals, evals_append, evals_map_write]
  · simp [ClockInv, replayInit, Sim.evalClocks, Sim.events, evals_map_write, alternates]

theorem riscv_clockInv {σ : Type} (m : Model RiscvMini.Inputs σ) (dev0 : σ) (n : Nat) :
    ClockInv (RiscvMini.run m dev0 n) := by
  apply iterations_invariant (RiscvMini.cond m) (RiscvMini.body m) ClockInv
  · intro s hs _
    refine clockInv_step s _ _ (RiscvMini.body m s).top hs rfl rfl ?_ rfl rfl
    cases h : s.top.clock <;> simp [RiscvMini.body, h, evals]
  · simp [ClockInv, RiscvMini.init, Sim.evalClocks, Sim.events, evals, alternates]

theorem benchTop_clockInv {σ : Type} (m : Model BenchTop.Inputs σ) (trace : Bool) (dev0 : σ)
    (n : Nat) : ClockInv (BenchTop.run m trace dev0 n) := by
  apply iterations_invariant (BenchTop.cond m) (BenchTop.body m trace) ClockInv
  · intro s hs _
    refine clockInv_step s _ _ (BenchTop.body m trace s).top hs rfl rfl ?_ rfl rfl
    cases trace <;> simp [BenchTop.body, evals]
  · simp [ClockInv, BenchTop.init, Sim.evalClocks, Sim.events, evals, alternates]

theorem userCoverage_clockInv {σ : Type} (m : Model UserCoverage.Inputs σ) (trace : Bool)
    (dev0 : σ) (n : Nat) : ClockInv (UserCoverage.run m trace dev0 n) := by
  apply iterations_invariant (UserCoverage.cond m) (UserCoverage.body m trace) ClockInv
  · intro s hs _
    refine clockInv_step s _ _ ⟨!s.top.clock, s.top.inp⟩ hs rfl rfl ?_ rfl rfl
    cases trace <;> simp [UserCoverage.body, evals, evals_append]
  · simp [ClockInv, UserCoverage.init, Sim.evalClocks, Sim.events, evals, alternates]

/-- C2.  In every harness the clock values the device sees at successive
eval calls alternate: at every point of every run (after any number `n` of
loop iterations, the evaluations before the loop of `benchmarks/top.cpp`
included) each eval call sees the negation of the clock the eval call before
it saw.  The model's `eval` gets the ports as an argument and returns the
internal state only, so it does not write the clock. -/
theorem clock_alternates :
    (∀ (k : FileBench) (σ : Type) (w : k.Inputs) (m : Model k.Inputs σ) (trace : Bool)
        (top0 : Top k.Inputs) (dev0 : σ) (content : List Char) (n : Nat),
        alternates (replayRun (k.bench w) m trace top0 dev0 content n).evalClocks = true) ∧
    (∀ (σ : Type) (m : Model RiscvMini.Inputs σ) (dev0 : σ) (n : Nat),
        alternates (RiscvMini.run m dev0 n).evalClocks = true) ∧
    (∀ (σ : Type) (m : Model BenchTop.Inputs σ) (trace : Bool) (dev0 : σ) (n : Nat),
        alternates (BenchTop.run m trace dev0 n).evalClocks = true) ∧
    (∀ (σ : Type) (m : Model UserCoverage.Inputs σ) (trace : Bool) (dev0 : σ) (n : Nat),
        alternates (UserCoverage.run m trace dev0 n).evalClocks = true) :=
  ⟨fun k _ w m trace top0 dev0 content n =>
      (replay_clockInv (k.bench w) m trace top0 dev0 content n).1,
    fun _ m dev0 n => (riscv_clockInv m dev0 n).1,
    fun _ m trace dev0 n => (benchTop_clockInv m trace dev0 n).1,
    fun _ m trace dev0 n => (userCoverage_clockInv m trace dev0 n).1⟩

/-! ## The finish flag -/

theorem replayCond_of_finish {V I σ : Type} (m : Model I σ) (s : Sim (Replay V) I σ)
    (h : m.gotFinish s.dev = true) : replayCond m s = false := by
  simp [replayCond, h]

theorem replayCond_of_feof {V I σ : Type} (m : Model I σ) (s : Sim (Replay V) I σ)
    (h : feof s.loc.pFile = true) : replayCond m s = false := by
  simp [replayCond, h]

/-- C3.  In every harness loop, once the finish flag is up at the end of an
iteration (the eval call of that iteration, or an earlier one, raised it),
the loop exits at its next condition check: the state after `j` iterations
is the final state, further iterations do not happen, so no further eval
call is made and the stimulus file is not read again whatever remains in
it. -/
theorem finish_stops_loop :
    (∀ (k : FileBench) (σ : Type) (w : k.Inputs) (m : Model k.Inputs σ) (trace : Bool)
        (top0 : Top k.Inputs) (dev0 : σ) (content : List Char) (j n : Nat),
        m.gotFinish (replayRun (k.bench w) m trace top0 dev0 content j).dev = true →
        replayRun (k.bench w) m trace top0 dev0 content (j + n) =
            replayRun (k.bench w) m trace top0 dev0 content j ∧
          replayMain (k.bench w) m trace top0 dev0 content (j + 1) =
            some (replayRun (k.bench w) m trace top0 dev0 content j)) ∧
    (∀ (σ : Type) (m : Model RiscvMini.Inputs σ) (dev0 : σ) (j n : Nat),
        m.gotFinish (RiscvMini.run m dev0 j).dev = true →
        RiscvMini.run m dev0 (j + n) = RiscvMini.run m dev0 j ∧
          RiscvMini.main m dev0 (j + 1) = some (RiscvMini.run m dev0 j)) ∧
    (∀ (σ : Type) (m : Model BenchTop.Inputs σ) (trace : Bool) (dev0 : σ) (j n : Nat),
        m.gotFinish (BenchTop.run m trace dev0 j).dev = true →
        BenchTop.run m trace dev0 (j + n) = BenchTop.run m trace dev0 j ∧
          BenchTop.main m trace dev0 (j + 1) = some (BenchTop.run m trace dev0 j)) ∧
    (∀ (σ : Type) (m : Model UserCoverage.Inputs σ) (trace : Bool) (dev0 : σ) (j n : Nat),
        m.gotFinish (UserCoverage.run m trace dev0 j).dev = true →
        UserCoverage.run m trace dev0 (j + n) = UserCoverage.run m trace dev0 j ∧
          UserCoverage.main m trace dev0 (j + 1) = some (UserCoverage.run m trace dev0 j)) := by
  refine ⟨?_, ?_, ?_, ?_⟩
  · intro k σ w m trace top0 dev0 content j n h
    exact loop_exited _ _ j n _ (replayCond_of_finish m _ h)
  · intro σ m dev0 j n h
    exact loop_exited _ _ j n _ (by simpa [RiscvMini.cond] using h)
  · intro σ m trace dev0 j n h
    exact loop_exited _ _ j n _ (by simp [BenchTop.cond]; intro h2; simp [BenchTop.run, h2] at h)
  · intro σ m trace dev0 j n h
    exact loop_exited _ _ j n _
      (by simp [UserCoverage.cond]; intro h2; simp [UserCoverage.run, h2] at h)

/-- Witness of C3: the neuromorphic processor harness on a file of two
records with a device that raises finish in its second evaluation; after two
iterations the flag is up and the loop has exited with the second record
unread. -/
theorem finish_stops_loop_witness :
    (finishAt NeuromorphicProcessor.Inputs 2).gotFinish
        (replayRun (FileBench.neuromorphicProcessor.bench byteWide)
          (finishAt NeuromorphicProcessor.Inputs 2) false zeroTop 0 (fileText twoRecords) 2).dev
        = true ∧
      (replayRun (FileBench.neuromorphicProcessor.bench byteWide)
          (finishAt NeuromorphicProcessor.Inputs 2) false zeroTop 0 (fileText twoRecords) (2 + 3)
        = replayRun (FileBench.neuromorphicProcessor.bench byteWide)
          (finishAt NeuromorphicProcessor.Inputs 2) false zeroTop 0 (fileText twoRecords) 2 ∧
      replayMain (FileBench.neuromorphicProcessor.bench byteWide)
          (finishAt NeuromorphicProcessor.Inputs 2) false zeroTop 0 (fileText twoRecords) (2 + 1)
        = some (replayRun (FileBench.neuromorphicProcessor.bench byteWide)
          (finishAt NeuromorphicProcessor.Inputs 2) false zeroTop 0 (fileText twoRecords) 2)) :=
  ⟨by decide, finish_stops_loop.1 FileBench.neuromorphicProcessor Nat byteWide
    (finishAt NeuromorphicProcessor.Inputs 2) false zeroTop 0 (fileText twoRecords) 2 3
    (by decide)⟩

/-! ## Counting reads and evaluations -/

theorem mem_reads_flatten {I : Type} (h : List (List (Event I))) (it : List (Event I))
    (hit : it ∈ h) (x : Nat) (hx : x ∈ reads it) : x ∈ reads h.flatten := by
  induction h with
  | nil => simp at hit
  | cons a h ih =>
    simp only [List.flatten_cons, reads_append, List.mem_append]
    rcases List.mem_cons.mp hit with e | e
    · left; rw [← e]; exact hx
    · right; exact ih e

/-- The complete run of a file-driven harness on a file of `recs.length ≥ 1`
well-formed records with a device that never raises finish and the clock low
at the start. -/
theorem replay_complete {V I σ : Type} (b : Bench V I) (m : Model I σ) (trace : Bool)
    (width : Nat) (hw : 0 < width) (hfmt : directives b.format = hexFields width)
    (top0 : Top I) (dev0 : σ) (recs : List (List Field))
    (hclk : top0.clock = false) (hfin : NeverFinishes m dev0) (hne : recs ≠ [])
    (hwf : wellFormedRecords width recs) :
    replayMain b m trace top0 dev0 (fileText recs) (2 * recs.length + 1) =
        some (replayRun b m trace top0 dev0 (fileText recs) (2 * recs.length)) ∧
      (replayRun b m trace top0 dev0 (fileText recs) (2 * recs.length)).hist.length =
        2 * recs.length ∧
      reads (replayRun b m trace top0 dev0 (fileText recs) (2 * recs.length)).hist.flatten =
        List.replicate recs.length width ∧
      (evals (replayRun b m trace top0 dev0 (fileText recs) (2 * recs.length)).events).length =
        2 * recs.length ∧
      (replayRun b m trace top0 dev0 (fileText recs) (2 * recs.length)).loc.main_time =
        (2 * recs.length) % 2 ^ 64 ∧
      (replayRun b m trace top0 dev0 (fileText recs) (2 * recs.length)).loc.vars =
        recs.foldl (fun v q => b.store (q.map fun t => t.val % 2 ^ 32) (b.tick v)) b.init := by
  cases recs with
  | nil => exact absurd rfl hne
  | cons r recs =>
    obtain ⟨g1, _, _, _, g5, g6, g7, g8, g9, g10⟩ :=
      replay_records b m trace width hw hfmt hfin.2 recs r hwf.1 hwf.2
        (replayInit b top0 dev0 (fileText (r :: recs))) hclk rfl hfin.1
    refine ⟨whileLoop_of_exit _ _ _ _ g1, ?_, ?_, ?_, ?_, ?_⟩
    · simpa [replayInit] using g7
    · simpa [replayInit, reads] using g8
    · have hpre : (replayRun b m trace top0 dev0 (fileText (r :: recs))
          (2 * (r :: recs).length)).pre = b.written.map Event.write := g10
      simp only [Sim.events, evals_append, hpre, evals_map_write, List.nil_append]
      simpa [replayInit, evals] using g9
    · simpa [replayInit] using g6
    · exact g5

/-- C1, amended.  In the three file-driven harnesses, for every stimulus file
made of N ≥ 1 well-formed records, every device that never raises finish and
a model whose clock is low when the loop starts (the harness does not set it;
the generated constructor zeroes the ports): the loop exits after exactly 2*N
iterations; each iteration whose clock is low after the flip makes exactly one
fscanf call, which converts a complete record, each other iteration makes
none; N records are read in total; eval is called exactly 2*N times. -/
theorem replay_counts (k : FileBench) (σ : Type) (w : k.Inputs) (m : Model k.Inputs σ)
    (trace : Bool) (top0 : Top k.Inputs) (dev0 : σ) (recs : List (List Field))
    (hclk : top0.clock = false) (hfin : NeverFinishes m dev0) (hne : recs ≠ [])
    (hwf : wellFormedRecords k.width recs) :
    ∃ s, replayMain (k.bench w) m trace top0 dev0 (fileText recs) (2 * recs.length + 1)
          = some s ∧
      s.hist.length = 2 * recs.length ∧
      (∀ it ∈ s.hist, (clocksWritten it = [false] ∧ reads it = [k.width]) ∨
        (clocksWritten it = [true] ∧ reads it = [])) ∧
      reads s.hist.flatten = List.replicate recs.length k.width ∧
      (evals s.events).length = 2 * recs.length := by
  obtain ⟨h1, h2, h3, h4, _, _⟩ :=
    replay_complete (k.bench w) m trace k.width k.width_pos (k.format_eq w) top0 dev0 recs
      hclk hfin hne hwf
  refine ⟨_, h1, h2, ?_, h3, h4⟩
  intro it hit
  obtain ⟨_, hshape⟩ := replayRun_shape (k.bench w) m trace top0 dev0 (fileText recs) _ it hit
  rcases hshape with ⟨hc, hr, _⟩ | ⟨hc, ⟨x, hx⟩, _⟩
  · exact Or.inr ⟨hc, hr⟩
  · left
    refine ⟨hc, ?_⟩
    have hmem : x ∈ reads (replayRun (k.bench w) m trace top0 dev0 (fileText recs)
        (2 * recs.length)).hist.flatten :=
      mem_reads_flatten _ it hit x (by simp [hx])
    rw [h3] at hmem
    rw [hx, (List.mem_replicate.mp hmem).2]

/-- Witness of C1: the neuromorphic processor harness on a file of two
records with a device that does nothing. -/
theorem replay_counts_witness :
    zeroTop.clock = false ∧ NeverFinishes (quiet NeuromorphicProcessor.Inputs) () ∧
      twoRecords ≠ [] ∧ wellFormedRecords FileBench.neuromorphicProcessor.width twoRecords ∧
      ∃ s, replayMain (FileBench.neuromorphicProcessor.bench byteWide)
            (quiet NeuromorphicProcessor.Inputs) true zeroTop () (fileText twoRecords)
            (2 * twoRecords.length + 1) = some s ∧
        s.hist.length = 2 * twoRecords.length ∧
        (∀ it ∈ s.hist,
          (clocksWritten it = [false] ∧ reads it = [FileBench.neuromorphicProcessor.width]) ∨
            (clocksWritten it = [true] ∧ reads it = [])) ∧
        reads s.hist.flatten =
          List.replicate twoRecords.length FileBench.neuromorphicProcessor.width ∧
        (evals s.events).length = 2 * twoRecords.length :=
  ⟨rfl, ⟨rfl, fun _ _ => rfl⟩, by decide, by decide,
    replay_counts FileBench.neuromorphicProcessor Unit byteWide
      (quiet NeuromorphicProcessor.Inputs) true zeroTop () twoRecords rfl
      ⟨rfl, fun _ _ => rfl⟩ (by decide) (by decide)⟩

/-- C1 as stated fails on the empty stimulus file (N = 0 records).  The
indicator of the end of the file is set only by a read, so the loop of the
neuromorphic processor harness runs two iterations, makes one fscanf call that
converts nothing, and calls eval twice, not 2*0 times. -/
theorem replay_counts_empty_file :
    (replayMain (FileBench.neuromorphicProcessor.bench byteWide)
        (quiet NeuromorphicProcessor.Inputs) false zeroTop () (fileText []) 3).map
      (fun s => (s.hist.length, reads s.hist.flatten, (evals s.events).length)) =
      some (2, [0], 2) := by
  decide

/-! ## The end of the stimulus file -/

/-- C4, amended.  In the three file-driven harnesses, for every stimulus
file, no iteration runs once the indicator of the end of the file is set (the
loop condition tests it); and for every stimulus file made of N ≥ 1
well-formed records, every fscanf call made during the run converts a complete
record, whatever the device does.  The harness does not look at the number of
fields a call converted: on every file, an iteration that calls fscanf
assigns all the inputs and evaluates once, whatever the call converted. -/
theorem reads_complete_until_eof (k : FileBench) (σ : Type) (w : k.Inputs)
    (m : Model k.Inputs σ) (trace : Bool) (top0 : Top k.Inputs) (dev0 : σ) :
    (∀ (content : List Char) (j n : Nat),
        feof (replayRun (k.bench w) m trace top0 dev0 content j).loc.pFile = true →
        replayRun (k.bench w) m trace top0 dev0 content (j + n) =
            replayRun (k.bench w) m trace top0 dev0 content j ∧
          replayMain (k.bench w) m trace top0 dev0 content (j + 1) =
            some (replayRun (k.bench w) m trace top0 dev0 content j)) ∧
    (∀ (recs : List (List Field)), recs ≠ [] → wellFormedRecords k.width recs →
        ∀ (n : Nat), ∀ c ∈ reads (replayRun (k.bench w) m trace top0 dev0
          (fileText recs) n).hist.flatten, c = k.width) ∧
    (∀ (content : List Char) (n : Nat),
        ∀ it ∈ (replayRun (k.bench w) m trace top0 dev0 content n).hist, reads it ≠ [] →
          writes it = (k.bench w).written ∧ (evals it).length = 1) := by
  refine ⟨fun _ j n h => loop_exited _ _ j n _ (replayCond_of_feof m _ h),
    fun recs hne hwf n =>
      replayRun_reads_complete (k.bench w) m trace k.width k.width_pos (k.format_eq w)
        top0 dev0 recs hne hwf n, ?_⟩
  intro content n it hit hr
  obtain ⟨he, hshape⟩ := replayRun_shape (k.bench w) m trace top0 dev0 content n it hit
  rcases hshape with ⟨_, h2, _⟩ | ⟨_, _, h3⟩
  · exact absurd h2 hr
  · exact ⟨h3, he⟩

/-- Witness of C4: the neuromorphic processor harness on a file of two
records; after four iterations the end of the file has been met. -/
theorem reads_complete_until_eof_witness :
    (feof (replayRun (FileBench.neuromorphicProcessor.bench byteWide)
        (quiet NeuromorphicProcessor.Inputs) false zeroTop () (fileText twoRecords) 4).loc.pFile
        = true ∧
      twoRecords ≠ [] ∧ wellFormedRecords FileBench.neuromorphicProcessor.width twoRecords) ∧
    (replayRun (FileBench.neuromorphicProcessor.bench byteWide)
        (quiet NeuromorphicProcessor.Inputs) false zeroTop () (fileText twoRecords) (4 + 1) =
      replayRun (FileBench.neuromorphicProcessor.bench byteWide)
        (quiet NeuromorphicProcessor.Inputs) false zeroTop () (fileText twoRecords) 4 ∧
    replayMain (FileBench.neuromorphicProcessor.bench byteWide)
        (quiet NeuromorphicProcessor.Inputs) false zeroTop () (fileText twoRecords) (4 + 1) =
      some (replayRun (FileBench.neuromorphicProcessor.bench byteWide)
        (quiet NeuromorphicProcessor.Inputs) false zeroTop () (fileText twoRecords) 4)) ∧
    (∀ c ∈ reads (replayRun (FileBench.neuromorphicProcessor.bench byteWide)
        (quiet NeuromorphicProcessor.Inputs) false zeroTop () (fileText twoRecords) 4).hist.flatten,
      c = FileBench.neuromorphicProcessor.width) :=
  ⟨⟨by decide, by decide, by decide⟩,
    (reads_complete_until_eof FileBench.neuromorphicProcessor Unit byteWide
      (quiet NeuromorphicProcessor.Inputs) false zeroTop ()).1 (fileText twoRecords) 4 1
      (by decide),
    (reads_complete_until_eof FileBench.neuromorphicProcessor Unit byteWide
      (quiet NeuromorphicProcessor.Inputs) false zeroTop ()).2.1 twoRecords (by decide)
      (by decide) 4⟩

/-- C4 as stated fails on a file that ends in a short record.  On the file
"1" (one field where the neuromorphic processor harness reads two) the only
fscanf call converts one field; the iteration writes it to `reset` together
with the old value of `io_uartRx`, evaluates, and only then the loop
stops. -/
theorem short_record_applied :
    (replayMain (NeuromorphicProcessor.bench byteWide)
        (quiet NeuromorphicProcessor.Inputs) false zeroTop () ['1'] 3).map
      (fun s => (reads s.hist.flatten, (evals s.events).map Top.inp, s.loc.pFile)) =
      some ([1], [⟨0, 0⟩, ⟨1, 0⟩], ⟨[], true⟩) := by
  decide

/-! ## The cycle count of the neuromorphic processor harness -/

theorem cycles_fold (w : NeuromorphicProcessor.Inputs) (recs : List (List Field))
    (v : NeuromorphicProcessor.Vars) (hv : v.cycles < 2 ^ 64) :
    (recs.foldl (fun v q => (NeuromorphicProcessor.bench w).store
        (q.map fun t => t.val % 2 ^ 32) ((NeuromorphicProcessor.bench w).tick v)) v).cycles =
      (v.cycles + recs.length) % 2 ^ 64 := by
  induction recs generalizing v with
  | nil => simp; omega
  | cons r recs ih =>
    simp only [List.foldl_cons, List.length_cons]
    rw [ih]
    · simp only [NeuromorphicProcessor.bench]
      omega
    · simp only [NeuromorphicProcessor.bench]
      omega

/-- C10.  In the neuromorphic processor harness, with a device that never
raises finish and the clock low when the loop starts (the harness does not
set it; the generated constructor zeroes the ports): on a stimulus file of
N ≥ 1 well-formed two-field records the loop ends with the reported cycle
count N and the time counter 2*N, the number of eval calls (the counters are
64 bit wide, N is below 2^63 for any file that can exist); on the empty file
the loop runs two iterations, makes one fscanf call that converts nothing,
both eval calls see the initial zero inputs, 1 cycle is reported and the
time counter is 2. -/
theorem neuromorphic_cycles (σ : Type) (w : NeuromorphicProcessor.Inputs)
    (m : Model NeuromorphicProcessor.Inputs σ) (trace : Bool)
    (top0 : Top NeuromorphicProcessor.Inputs) (dev0 : σ)
    (hclk : top0.clock = false) (hfin : NeverFinishes m dev0) :
    (∀ (recs : List (List Field)), recs ≠ [] → wellFormedRecords 2 recs →
        2 * recs.length < 2 ^ 64 →
        ∃ s, NeuromorphicProcessor.main w m trace top0 dev0 (fileText recs)
              (2 * recs.length + 1) = some s ∧
          NeuromorphicProcessor.reported s = recs.length ∧
          s.loc.main_time = 2 * recs.length ∧
          (evals s.events).length = 2 * recs.length) ∧
    (∃ s, NeuromorphicProcessor.main w m trace top0 dev0 (fileText []) 3 = some s ∧
        s.hist.length = 2 ∧
        reads s.hist.flatten = [0] ∧
        (evals s.events).map Top.inp = [⟨0, 0⟩, ⟨0, 0⟩] ∧
        NeuromorphicProcessor.reported s = 1 ∧
        s.loc.main_time = 2) := by
  constructor
  · intro recs hne hwf hlt
    obtain ⟨h1, _, _, h4, h5, h6⟩ :=
      replay_complete (NeuromorphicProcessor.bench w) m trace 2 (by decide) rfl top0 dev0 recs
        hclk hfin hne hwf
    refine ⟨_, h1, ?_, ?_, h4⟩
    · have hinit : (NeuromorphicProcessor.bench w).init.cycles < 2 ^ 64 := by
        show (0 : Nat) < 2 ^ 64
        decide
      rw [NeuromorphicProcessor.reported, h6, cycles_fold w recs _ hinit]
      simp only [NeuromorphicProcessor.bench]
      omega
    · rw [h5]
      omega
  · have hf1 := hfin.1
    have hf2 := hfin.2
    have hscan : fscanf (directives (NeuromorphicProcessor.bench w).format) (fopen []) =
        (⟨[], true⟩, []) := rfl
    have h0 : replayCond m (replayInit (NeuromorphicProcessor.bench w) top0 dev0 (fileText [])
        : Sim (Replay NeuromorphicProcessor.Vars) NeuromorphicProcessor.Inputs σ) = true := by
      simp [replayCond, replayInit, hf1, feof, fopen]
    have hc1 : (replayBody (NeuromorphicProcessor.bench w) m trace
        (replayInit (NeuromorphicProcessor.bench w) top0 dev0 (fileText []))).top.clock
          = true := by
      simp [replayBody_clock, replayInit, hclk]
    have h1 : replayCond m (replayBody (NeuromorphicProcessor.bench w) m trace
        (replayInit (NeuromorphicProcessor.bench w) top0 dev0 (fileText []))) = true := by
      rw [replayBody_posedge _ _ _ _ (by simpa [replayInit] using hclk)]
      simp [replayCond, replayInit, hf2, feof, fopen]
    have hfile : (replayBody (NeuromorphicProcessor.bench w) m trace
        (replayInit (NeuromorphicProcessor.bench w) top0 dev0 (fileText []))).loc.pFile
          = fopen [] := by
      rw [replayBody_posedge _ _ _ _ (by simpa [replayInit] using hclk)]
      rfl
    have h2 : replayCond m (replayBody (NeuromorphicProcessor.bench w) m trace
        (replayBody (NeuromorphicProcessor.bench w) m trace
          (replayInit (NeuromorphicProcessor.bench w) top0 dev0 (fileText [])))) = false := by
      rw [replayBody_negedge _ _ _ _ hc1, hfile, hscan]
      simp [replayCond, feof]
    refine ⟨replayBody (NeuromorphicProcessor.bench w) m trace
        (replayBody (NeuromorphicProcessor.bench w) m trace
          (replayInit (NeuromorphicProcessor.bench w) top0 dev0 (fileText []))),
      by simp [NeuromorphicProcessor.main, replayMain, whileLoop, h0, h1, h2], ?_⟩
    rw [replayBody_negedge _ _ _ _ hc1, hfile, hscan]
    rw [replayBody_posedge _ _ _ _ (by simpa [replayInit] using hclk)]
    cases trace <;>
      simp [replayInit, reads, evals, Sim.events, evals_append, evals_map_write,
        NeuromorphicProcessor.reported, NeuromorphicProcessor.bench, trunc]

/-- Witness of C10: a file of two records and a device that does nothing. -/
theorem neuromorphic_cycles_witness :
    (zeroTop.clock = false ∧ NeverFinishes (quiet NeuromorphicProcessor.Inputs) () ∧
      twoRecords ≠ [] ∧ wellFormedRecords 2 twoRecords ∧ 2 * twoRecords.length < 2 ^ 64) ∧
    ∃ s, NeuromorphicProcessor.main byteWide (quiet NeuromorphicProcessor.Inputs)
          true zeroTop () (fileText twoRecords) (2 * twoRecords.length + 1) = some s ∧
      NeuromorphicProcessor.reported s = twoRecords.length ∧
      s.loc.main_time = 2 * twoRecords.length ∧
      (evals s.events).length = 2 * twoRecords.length :=
  ⟨⟨rfl, ⟨rfl, fun _ _ => rfl⟩, by decide, by decide, by decide⟩,
    (neuromorphic_cycles Unit byteWide (quiet NeuromorphicProcessor.Inputs) true zeroTop ()
      rfl ⟨rfl, fun _ _ => rfl⟩).1 twoRecords (by decide) (by decide) (by decide)⟩

/-! ## The record of the TileLink RAM harness -/

/-- A value that fits "%x" and the port arrives at the port unchanged. -/
theorem trunc_stored (bits v : Nat) (h32 : v < 2 ^ 32) (hw : v < 2 ^ bits) :
    trunc bits (v % 2 ^ 32) = v := by
  rw [trunc, Nat.mod_eq_of_lt h32, Nat.mod_eq_of_lt hw]

/-- Two executions of the loop body of the TLRAM harness from a state with
the clock high and the file at a well-formed record of 11 fields that fit:
the events of the two iterations. -/
theorem tlram_period_events (σ : Type) (w : TLRAM.Inputs) (m : Model TLRAM.Inputs σ)
    (trace : Bool) (s : Sim (Replay TLRAM.Inputs) TLRAM.Inputs σ)
    (f0 f1 f2 f3 f4 f5 f6 f7 f8 f9 f10 : Field) (rest : List Field)
    (hclk : s.top.clock = true)
    (hfile : s.loc.pFile.buf =
      fieldsText ([f0, f1, f2, f3, f4, f5, f6, f7, f8, f9, f10] ++ rest))
    (hwf : wellFormed ([f0, f1, f2, f3, f4, f5, f6, f7, f8, f9, f10] ++ rest) = true)
    (hfit : TLRAM.fits w
      { reset := f0.val, in_a_valid := f1.val, in_a_bits_opcode := f2.val,
        in_a_bits_param := f3.val, in_a_bits_size := f4.val, in_a_bits_source := f5.val,
        in_a_bits_address := f6.val, in_a_bits_mask := f7.val, in_a_bits_data := f8.val,
        in_a_bits_corrupt := f9.val, in_d_ready := f10.val }) :
    ∃ low high,
      (replayBody (TLRAM.bench w) m trace (replayBody (TLRAM.bench w) m trace s)).hist =
        s.hist ++ [low, high] ∧
      (replayBody (TLRAM.bench w) m trace s).hist = s.hist ++ [low] ∧
      reads low = [11] ∧
      evals low = [⟨false,
        { reset := f0.val, in_a_valid := f1.val, in_a_bits_opcode := f2.val,
          in_a_bits_param := f3.val, in_a_bits_size := f4.val, in_a_bits_source := f5.val,
          in_a_bits_address := f6.val, in_a_bits_mask := f7.val, in_a_bits_data := f8.val,
          in_a_bits_corrupt := f9.val, in_d_ready := f10.val }⟩] ∧
      reads high = [] ∧
      evals high = [⟨true,
        { reset := f0.val, in_a_valid := f1.val, in_a_bits_opcode := f2.val,
          in_a_bits_param := f3.val, in_a_bits_size := f4.val, in_a_bits_source := f5.val,
          in_a_bits_address := f6.val, in_a_bits_mask := f7.val, in_a_bits_data := f8.val,
          in_a_bits_corrupt := f9.val, in_d_ready := f10.val }⟩] ∧
      clocksWritten low = [false] ∧ clocksWritten high = [true] := by
  have hscan := fscanf_record [f0, f1, f2, f3, f4, f5, f6, f7, f8, f9, f10] rest
    s.loc.pFile.eof hwf
  rw [← hfile] at hscan
  have hfmt : directives (TLRAM.bench w).format =
      hexFields [f0, f1, f2, f3, f4, f5, f6, f7, f8, f9, f10].length := rfl
  rw [← hfmt] at hscan
  have hscan2 : fscanf (directives (TLRAM.bench w).format) s.loc.pFile = _ := hscan
  have hclk1 : (replayBody (TLRAM.bench w) m trace s).top.clock = false := by
    simp [replayBody_clock, hclk]
  obtain ⟨⟨a0, b0⟩, ⟨a1, b1⟩, ⟨a2, b2⟩, ⟨a3, b3⟩, ⟨a4, b4⟩, ⟨a5, b5⟩, ⟨a6, b6⟩, ⟨a7, b7⟩,
    ⟨a8, b8⟩, ⟨a9, b9⟩, ⟨a10, b10⟩⟩ := hfit
  simp only at a0 b0 a1 b1 a2 b2 a3 b3 a4 b4 a5 b5 a6 b6 a7 b7 a8 b8 a9 b9 a10 b10
  have hdrive : (TLRAM.bench w).drive ((TLRAM.bench w).store
      (fscanf (directives (TLRAM.bench w).format) s.loc.pFile).2
      ((TLRAM.bench w).tick s.loc.vars)) =
      { reset := f0.val, in_a_valid := f1.val, in_a_bits_opcode := f2.val,
        in_a_bits_param := f3.val, in_a_bits_size := f4.val, in_a_bits_source := f5.val,
        in_a_bits_address := f6.val, in_a_bits_mask := f7.val, in_a_bits_data := f8.val,
        in_a_bits_corrupt := f9.val, in_d_ready := f10.val } := by
    rw [hscan2]
    simp only [TLRAM.bench, List.map, List.getD_cons_zero, List.getD_cons_succ,
      trunc_stored _ _ a0 b0, trunc_stored _ _ a1 b1, trunc_stored _ _ a2 b2,
      trunc_stored _ _ a3 b3, trunc_stored _ _ a4 b4, trunc_stored _ _ a5 b5,
      trunc_stored _ _ a6 b6, trunc_stored _ _ a7 b7, trunc_stored _ _ a8 b8,
      trunc_stored _ _ a9 b9, trunc_stored _ _ a10 b10]
  have hh : (replayBody (TLRAM.bench w) m trace s).hist = s.hist ++
      [Event.clock false :: (Event.read 11 :: (TLRAM.bench w).written.map Event.write) ++
        Event.eval ⟨false,
          { reset := f0.val, in_a_valid := f1.val, in_a_bits_opcode := f2.val,
            in_a_bits_param := f3.val, in_a_bits_size := f4.val, in_a_bits_source := f5.val,
            in_a_bits_address := f6.val, in_a_bits_mask := f7.val, in_a_bits_data := f8.val,
            in_a_bits_corrupt := f9.val, in_d_ready := f10.val }⟩ ::
        (if trace then [Event.dump ((s.loc.main_time + 1) % 2 ^ 64)] else [])] := by
    rw [replayBody_negedge _ m trace s hclk, hdrive, hscan2]
    rfl
  have hi : (replayBody (TLRAM.bench w) m trace s).top.inp =
      { reset := f0.val, in_a_valid := f1.val, in_a_bits_opcode := f2.val,
        in_a_bits_param := f3.val, in_a_bits_size := f4.val, in_a_bits_source := f5.val,
        in_a_bits_address := f6.val, in_a_bits_mask := f7.val, in_a_bits_data := f8.val,
        in_a_bits_corrupt := f9.val, in_d_ready := f10.val } := by
    rw [replayBody_negedge _ m trace s hclk, hdrive]
  have hh2 : (replayBody (TLRAM.bench w) m trace (replayBody (TLRAM.bench w) m trace s)).hist =
      (replayBody (TLRAM.bench w) m trace s).hist ++
      [Event.clock true :: Event.eval ⟨true, (replayBody (TLRAM.bench w) m trace s).top.inp⟩ ::
        (if trace then
          [Event.dump (((replayBody (TLRAM.bench w) m trace s).loc.main_time + 1) % 2 ^ 64)]
          else [])] := by
    rw [replayBody_posedge _ m trace _ hclk1]
  rw [hi, hh] at hh2
  simp only [List.append_assoc, List.singleton_append] at hh2
  refine ⟨_, _, hh2, hh, ?_, ?_, ?_, ?_, ?_, ?_⟩
  · cases trace <;> simp [reads, reads_append, reads_map_write]
  · cases trace <;> simp [evals, evals_append, evals_map_write]
  · cases trace <;> simp [reads]
  · cases trace <;> simp [evals]
  · cases trace <;> simp [clocksWritten, clocksWritten_append, clocksWritten_map_write]
  · cases trace <;> simp [clocksWritten]

/-- One clock period of a file-driven loop when the finish flag is down
before both of its iterations. -/
theorem replay_period_run {V I σ : Type} (b : Bench V I) (m : Model I σ) (trace : Bool)
    (width : Nat) (hfmt : directives b.format = hexFields width)
    (r rest : List Field) (hr : r.length = width) (hwf : wellFormed (r ++ rest) = true)
    (s : Sim (Replay V) I σ) (hclk : s.top.clock = false)
    (hfile : s.loc.pFile = ⟨fieldsText (r ++ rest), false⟩)
    (hdev : m.gotFinish s.dev = false)
    (hdev1 : m.gotFinish (replayBody b m trace s).dev = false) :
    iterations (replayCond m) (replayBody b m trace) 1 s = replayBody b m trace s ∧
      iterations (replayCond m) (replayBody b m trace) 2 s =
        replayBody b m trace (replayBody b m trace s) ∧
      (replayBody b m trace s).top.clock = true ∧
      (replayBody b m trace s).loc.pFile = ⟨fieldsText (r ++ rest), false⟩ ∧
      (replayBody b m trace s).hist.length = s.hist.length + 1 ∧
      (replayBody b m trace (replayBody b m trace s)).top.clock = false ∧
      (replayBody b m trace (replayBody b m trace s)).loc.pFile =
        ⟨fieldsText rest, !r.isEmpty && rest.isEmpty⟩ ∧
      (replayBody b m trace (replayBody b m trace s)).hist.length = s.hist.length + 2 := by
  have hc0 : replayCond m s = true := by simp [replayCond, feof, hdev, hfile]
  have h1clk : (replayBody b m trace s).top.clock = true := by
    simp [replayBody_clock, hclk]
  have h1file : (replayBody b m trace s).loc.pFile = ⟨fieldsText (r ++ rest), false⟩ := by
    rw [replayBody_posedge b m trace s hclk]
    exact hfile
  have hc1 : replayCond m (replayBody b m trace s) = true := by
    simp [replayCond, feof, h1file, hdev1]
  have hscan := fscanf_record r rest false hwf
  rw [hr, ← hfmt, ← h1file] at hscan
  have h1len : (replayBody b m trace s).hist.length = s.hist.length + 1 := by
    rw [replayBody_posedge b m trace s hclk]
    simp
  refine ⟨by simp [iterations, hc0], by simp [iterations, hc0, hc1], h1clk, h1file, h1len,
    by rw [replayBody_clock, h1clk]; rfl, ?_, ?_⟩
  · rw [replayBody_negedge b m trace _ h1clk, hscan]
    simp
  · rw [replayBody_negedge b m trace _ h1clk]
    simp only [List.length_append, List.length_singleton, h1len]

/-- The run of a file-driven loop over the records `before`, more fields
following them, while the finish flag stays down: two iterations for each
record, after which the clock is low and the file is at the field that
follows. -/
theorem replay_before {V I σ : Type} (b : Bench V I) (m : Model I σ) (trace : Bool)
    (width : Nat) (hfmt : directives b.format = hexFields width)
    (before : List (List Field)) (rest : List Field) (hrest : rest ≠ [])
    (hall : ∀ q ∈ before, q.length = width)
    (hwf : wellFormed (before.flatten ++ rest) = true)
    (s : Sim (Replay V) I σ) (hclk : s.top.clock = false)
    (hfile : s.loc.pFile = ⟨fieldsText (before.flatten ++ rest), false⟩)
    (hrun : ∀ j < 2 * before.length,
      m.gotFinish (iterations (replayCond m) (replayBody b m trace) j s).dev = false) :
    (iterations (replayCond m) (replayBody b m trace) (2 * before.length) s).top.clock
        = false ∧
      (iterations (replayCond m) (replayBody b m trace) (2 * before.length) s).loc.pFile
        = ⟨fieldsText rest, false⟩ ∧
      (iterations (replayCond m) (replayBody b m trace) (2 * before.length) s).hist.length
        = s.hist.length + 2 * before.length := by
  induction before generalizing s with
  | nil => exact ⟨hclk, by simpa using hfile, by simp [iterations]⟩
  | cons r before ih =>
    have hr : r.length = width := hall r (by simp)
    have hwf1 : wellFormed (r ++ (before.flatten ++ rest)) = true := by simpa using hwf
    have hfile1 : s.loc.pFile = ⟨fieldsText (r ++ (before.flatten ++ rest)), false⟩ := by
      simpa using hfile
    have hne : (before.flatten ++ rest).isEmpty = false := by
      cases hh : before.flatten ++ rest with
      | nil =>
        have := List.append_eq_nil.mp hh
        exact absurd this.2 hrest
      | cons c cs => rfl
    have hd0 : m.gotFinish s.dev = false := by
      have := hrun 0 (by simp only [List.length_cons]; omega)
      simpa [iterations] using this
    have hc0 : replayCond m s = true := by simp [replayCond, feof, hd0, hfile1]
    have hd1 : m.gotFinish (replayBody b m trace s).dev = false := by
      have := hrun 1 (by simp only [List.length_cons]; omega)
      simpa [iterations, hc0] using this
    obtain ⟨_, h2, _, _, _, hc, hf, hl⟩ :=
      replay_period_run b m trace width hfmt r (before.flatten ++ rest) hr hwf1 s hclk hfile1
        hd0 hd1
    simp only [hne, Bool.and_false] at hf
    have hsplit : 2 * (r :: before).length = 2 + 2 * before.length := by
      simp only [List.length_cons]; omega
    rw [hsplit, iterations_add, h2]
    obtain ⟨g1, g2, g3⟩ :=
      ih (fun q hq => hall q (by simp [hq])) (wellFormed_append_right r _ hwf1) _ hc hf
        (fun j hj => by
          have := hrun (2 + j) (by simp only [List.length_cons]; omega)
          rwa [iterations_add, h2] at this)
    refine ⟨g1, g2, ?_⟩
    rw [g3, hl]
    omega

/-- C7.  In the TLRAM harness, with the clock low when the loop starts, on a
stimulus file of well-formed 11-field records, for every record f0..f10 of
the file whose fields are below 2^32 and within the storage width of their
ports, as long as the finish flag is down before the iteration that reads the
record: that iteration (iteration 2b+2 of the run when b records precede, clock
low after the flip, one fscanf call converting 11 fields) makes one eval call,
which sees reset, in_a_valid, in_a_bits_opcode, in_a_bits_param,
in_a_bits_size, in_a_bits_source, in_a_bits_address, in_a_bits_mask,
in_a_bits_data, in_a_bits_corrupt, in_d_ready equal to f0..f10 in that order;
and when the loop goes on after it, which it does exactly when that eval call
left the finish flag down and a record follows in the file, the next
iteration (clock high, no fscanf call) makes one eval call, which sees the
same values. -/
theorem tlram_record_applied (σ : Type) (w : TLRAM.Inputs) (m : Model TLRAM.Inputs σ)
    (trace : Bool) (top0 : Top TLRAM.Inputs) (dev0 : σ)
    (before after : List (List Field)) (f0 f1 f2 f3 f4 f5 f6 f7 f8 f9 f10 : Field)
    (hclk : top0.clock = false)
    (hwf : wellFormedRecords 11
      (before ++ [f0, f1, f2, f3, f4, f5, f6, f7, f8, f9, f10] :: after))
    (hfit : TLRAM.fits w
      { reset := f0.val, in_a_valid := f1.val, in_a_bits_opcode := f2.val,
        in_a_bits_param := f3.val, in_a_bits_size := f4.val, in_a_bits_source := f5.val,
        in_a_bits_address := f6.val, in_a_bits_mask := f7.val, in_a_bits_data := f8.val,
        in_a_bits_corrupt := f9.val, in_d_ready := f10.val })
    (hrun : ∀ j < 2 * before.length + 2,
      m.gotFinish (replayRun (TLRAM.bench w) m trace top0 dev0
        (fileText (before ++ [f0, f1, f2, f3, f4, f5, f6, f7, f8, f9, f10] :: after)) j).dev
        = false) :
    ∃ low,
      (replayRun (TLRAM.bench w) m trace top0 dev0
          (fileText (before ++ [f0, f1, f2, f3, f4, f5, f6, f7, f8, f9, f10] :: after))
          (2 * before.length + 1)).hist.length = 2 * before.length + 1 ∧
      (replayRun (TLRAM.bench w) m trace top0 dev0
          (fileText (before ++ [f0, f1, f2, f3, f4, f5, f6, f7, f8, f9, f10] :: after))
          (2 * before.length + 2)).hist =
        (replayRun (TLRAM.bench w) m trace top0 dev0
          (fileText (before ++ [f0, f1, f2, f3, f4, f5, f6, f7, f8, f9, f10] :: after))
          (2 * before.length + 1)).hist ++ [low] ∧
      clocksWritten low = [false] ∧
      reads low = [11] ∧
      evals low = [⟨false,
        { reset := f0.val, in_a_valid := f1.val, in_a_bits_opcode := f2.val,
          in_a_bits_param := f3.val, in_a_bits_size := f4.val, in_a_bits_source := f5.val,
          in_a_bits_address := f6.val, in_a_bits_mask := f7.val, in_a_bits_data := f8.val,
          in_a_bits_corrupt := f9.val, in_d_ready := f10.val }⟩] ∧
      (replayCond m (replayRun (TLRAM.bench w) m trace top0 dev0
          (fileText (before ++ [f0, f1, f2, f3, f4, f5, f6, f7, f8, f9, f10] :: after))
          (2 * before.length + 2)) = true ↔
        (m.gotFinish (replayRun (TLRAM.bench w) m trace top0 dev0
          (fileText (before ++ [f0, f1, f2, f3, f4, f5, f6, f7, f8, f9, f10] :: after))
          (2 * before.length + 2)).dev = false ∧ after ≠ [])) ∧
      (replayCond m (replayRun (TLRAM.bench w) m trace top0 dev0
          (fileText (before ++ [f0, f1, f2, f3, f4, f5, f6, f7, f8, f9, f10] :: after))
          (2 * before.length + 2)) = true →
        ∃ high,
          (replayRun (TLRAM.bench w) m trace top0 dev0
              (fileText (before ++ [f0, f1, f2, f3, f4, f5, f6, f7, f8, f9, f10] :: after))
              (2 * before.length + 3)).hist =
            (replayRun (TLRAM.bench w) m trace top0 dev0
              (fileText (before ++ [f0, f1, f2, f3, f4, f5, f6, f7, f8, f9, f10] :: after))
              (2 * before.length + 1)).hist ++ [low, high] ∧
          clocksWritten high = [true] ∧
          reads high = [] ∧
          evals high = [⟨true,
            { reset := f0.val, in_a_valid := f1.val, in_a_bits_opcode := f2.val,
              in_a_bits_param := f3.val, in_a_bits_size := f4.val,
              in_a_bits_source := f5.val, in_a_bits_address := f6.val,
              in_a_bits_mask := f7.val, in_a_bits_data := f8.val,
              in_a_bits_corrupt := f9.val, in_d_ready := f10.val }⟩]) ∧
      (replayCond m (replayRun (TLRAM.bench w) m trace top0 dev0
          (fileText (before ++ [f0, f1, f2, f3, f4, f5, f6, f7, f8, f9, f10] :: after))
          (2 * before.length + 2)) = false →
        TLRAM.main w m trace top0 dev0
            (fileText (before ++ [f0, f1, f2, f3, f4, f5, f6, f7, f8, f9, f10] :: after))
            (2 * before.length + 3) =
          some (replayRun (TLRAM.bench w) m trace top0 dev0
            (fileText (before ++ [f0, f1, f2, f3, f4, f5, f6, f7, f8, f9, f10] :: after))
            (2 * before.length + 2))) := by
  have hall : ∀ q ∈ before, q.length = 11 := fun q hq => hwf.1 q (by simp [hq])
  have hafter : ∀ q ∈ after, q.length = 11 := fun q hq => hwf.1 q (by simp [hq])
  have hwfl : wellFormed
      (before.flatten ++ ([f0, f1, f2, f3, f4, f5, f6, f7, f8, f9, f10] ++ after.flatten))
      = true := by
    simpa using hwf.2
  have hcontent : fileText (before ++ [f0, f1, f2, f3, f4, f5, f6, f7, f8, f9, f10] :: after) =
      fieldsText
        (before.flatten ++ ([f0, f1, f2, f3, f4, f5, f6, f7, f8, f9, f10] ++ after.flatten)) := by
    simp [fileText]
  have hempty : after.flatten.isEmpty = true ↔ after = [] := by
    cases after with
    | nil => simp
    | cons r rs =>
      have hr : r.length = 11 := hafter r (by simp)
      cases r with
      | nil => simp at hr
      | cons t ts => simp
  simp only [replayRun, TLRAM.main, replayMain] at hrun ⊢
  generalize hinit : (replayInit (TLRAM.bench w) top0 dev0
    (fileText (before ++ [f0, f1, f2, f3, f4, f5, f6, f7, f8, f9, f10] :: after)) :
      Sim (Replay TLRAM.Inputs) TLRAM.Inputs σ) = s0 at hrun ⊢
  have hs0clk : s0.top.clock = false := by rw [← hinit]; exact hclk
  have hs0file : s0.loc.pFile = ⟨fieldsText
      (before.flatten ++ ([f0, f1, f2, f3, f4, f5, f6, f7, f8, f9, f10] ++ after.flatten)),
      false⟩ := by
    rw [← hinit, ← hcontent]; rfl
  have hs0hist : s0.hist.length = 0 := by rw [← hinit]; rfl
  obtain ⟨p1, p2, p3⟩ := replay_before (TLRAM.bench w) m trace 11 rfl before
    ([f0, f1, f2, f3, f4, f5, f6, f7, f8, f9, f10] ++ after.flatten) (by simp) hall hwfl
    s0 hs0clk hs0file (fun j hj => hrun j (by omega))
  have hd0 := hrun (2 * before.length) (by omega)
  have hc0 : replayCond m (iterations (replayCond m) (replayBody (TLRAM.bench w) m trace)
      (2 * before.length) s0) = true := by
    simp [replayCond, feof, hd0, p2]
  have e1 : iterations (replayCond m) (replayBody (TLRAM.bench w) m trace)
      (2 * before.length + 1) s0 =
      replayBody (TLRAM.bench w) m trace
        (iterations (replayCond m) (replayBody (TLRAM.bench w) m trace)
          (2 * before.length) s0) := by
    rw [iterations_succ, hc0]
    rfl
  have hd1 := hrun (2 * before.length + 1) (by omega)
  rw [e1] at hd1
  obtain ⟨_, q2, q3, q4, q5, _, q7, _⟩ :=
    replay_period_run (TLRAM.bench w) m trace 11 rfl
      [f0, f1, f2, f3, f4, f5, f6, f7, f8, f9, f10] after.flatten rfl
      (wellFormed_append_right before.flatten _ hwfl) _ p1 p2 hd0 hd1
  have e2 : iterations (replayCond m) (replayBody (TLRAM.bench w) m trace)
      (2 * before.length + 2) s0 =
      replayBody (TLRAM.bench w) m trace (replayBody (TLRAM.bench w) m trace
        (iterations (replayCond m) (replayBody (TLRAM.bench w) m trace)
          (2 * before.length) s0)) := by
    rw [iterations_add, q2]
  obtain ⟨low, high, hh2, hh1, hr1, he1, hr2, he2, hk1, hk2⟩ :=
    tlram_period_events σ w m trace _ f0 f1 f2 f3 f4 f5 f6 f7 f8 f9 f10 after.flatten q3
      (by rw [q4]) (wellFormed_append_right before.flatten _ hwfl) hfit
  have hcond : replayCond m (replayBody (TLRAM.bench w) m trace
      (replayBody (TLRAM.bench w) m trace
        (iterations (replayCond m) (replayBody (TLRAM.bench w) m trace)
          (2 * before.length) s0))) = true ↔
      (m.gotFinish (replayBody (TLRAM.bench w) m trace
        (replayBody (TLRAM.bench w) m trace
          (iterations (replayCond m) (replayBody (TLRAM.bench w) m trace)
            (2 * before.length) s0))).dev = false ∧ after ≠ []) := by
    simp only [replayCond, feof, q7, Bool.and_eq_true, Bool.not_eq_true']
    constructor
    · rintro ⟨h1, h2⟩
      refine ⟨h1, fun h0 => ?_⟩
      rw [h0] at h2
      simp at h2
    · rintro ⟨h1, h2⟩
      refine ⟨h1, ?_⟩
      cases hh : after.flatten.isEmpty with
      | false => simp
      | true => exact absurd (hempty.mp hh) h2
  have e3 : iterations (replayCond m) (replayBody (TLRAM.bench w) m trace)
      (2 * before.length + 3) s0 =
      iterations (replayCond m) (replayBody (TLRAM.bench w) m trace) 1
        (iterations (replayCond m) (replayBody (TLRAM.bench w) m trace)
          (2 * before.length + 2) s0) := by
    rw [← iterations_add]
  rw [e1, e2]
  refine ⟨low, ?_, hh1, hk1, hr1, he1, hcond, ?_, ?_⟩
  · rw [q5, p3, hs0hist]
    omega
  · intro hc
    refine ⟨high, ?_, hk2, hr2, he2⟩
    rw [e3, e2]
    simp only [iterations, hc, if_true]
    exact hh2
  · intro hc
    have := whileLoop_of_exit (replayCond m) (replayBody (TLRAM.bench w) m trace)
      (2 * before.length + 2) s0 (by rw [e2]; exact hc)
    rw [e2] at this
    exact this

/-- Witness of C7: the TLRAM harness on a file of two records, for the
first of them; the loop goes on after the iteration that reads it. -/
theorem tlram_record_applied_witness :
    (tlramZeroTop.clock = false ∧
      wellFormedRecords 11 ([] ++ tlramFirst :: [tlramNext]) ∧
      TLRAM.fits tlramWidths tlramRecord ∧
      ∀ j < 2, (quiet TLRAM.Inputs).gotFinish (tlramRun j).dev = false) ∧
    ∃ low,
      (tlramRun 1).hist.length = 1 ∧
      (tlramRun 2).hist = (tlramRun 1).hist ++ [low] ∧
      clocksWritten low = [false] ∧
      reads low = [11] ∧
      evals low = [⟨false, tlramRecord⟩] ∧
      (replayCond (quiet TLRAM.Inputs) (tlramRun 2) = true ↔
        ((quiet TLRAM.Inputs).gotFinish (tlramRun 2).dev = false ∧ [tlramNext] ≠ [])) ∧
      (replayCond (quiet TLRAM.Inputs) (tlramRun 2) = true →
        ∃ high,
          (tlramRun 3).hist = (tlramRun 1).hist ++ [low, high] ∧
          clocksWritten high = [true] ∧
          reads high = [] ∧
          evals high = [⟨true, tlramRecord⟩]) ∧
      (replayCond (quiet TLRAM.Inputs) (tlramRun 2) = false →
        TLRAM.main tlramWidths (quiet TLRAM.Inputs) false tlramZeroTop () tlramFile 3 =
          some (tlramRun 2)) :=
  ⟨⟨rfl, by decide, by decide, fun _ _ => rfl⟩,
    tlram_record_applied Unit tlramWidths (quiet TLRAM.Inputs) false tlramZeroTop () []
      [tlramNext]
      (field "0" " ") (field "1" " ") (field "4" " ") (field "0" " ") (field "2" " ")
      (field "1f" " ") (field "80001000" " ") (field "f" " ") (field "deadbeef" " ")
      (field "0" " ") (field "1" "\n")
      rfl (by decide) (by decide) (fun _ _ => rfl)⟩

/-! ## The budget-limited harnesses -/

/-- A property of single iterations that every execution of the body
establishes holds for every iteration of the history. -/
theorem hist_forall {S I : Type} (hist : S → List (List (Event I))) (cond : S → Bool)
    (body : S → S) (P : List (Event I) → Prop)
    (hbody : ∀ s, ∃ it, hist (body s) = hist s ++ [it] ∧ P it)
    (s0 : S) (h0 : hist s0 = []) (n : Nat) :
    ∀ it ∈ hist (iterations cond body n s0), P it := by
  apply iterations_invariant cond body (fun s => ∀ it ∈ hist s, P it)
  · intro s hs _ it hit
    obtain ⟨it2, h2, hP⟩ := hbody s
    rw [h2] at hit
    rcases List.mem_append.mp hit with h | h
    · exact hs it h
    · simp at h
      subst h
      exact hP
  · intro it hit
    simp [h0] at hit

theorem benchTop_inv {σ : Type} (m : Model BenchTop.Inputs σ) (trace : Bool) (dev0 : σ)
    (n : Nat) :
    (BenchTop.run m trace dev0 n).loc.count = (BenchTop.run m trace dev0 n).hist.length ∧
      (BenchTop.run m trace dev0 n).hist.length ≤ BenchTop.budget ∧
      (BenchTop.run m trace dev0 n).loc.main_time =
        (BenchTop.run m trace dev0 n).hist.length + 2 ∧
      (BenchTop.run m trace dev0 n).hist.map stamps =
        (List.range (BenchTop.run m trace dev0 n).hist.length).map
          fun i => if trace then [i] else [] := by
  apply iterations_invariant (BenchTop.cond m) (BenchTop.body m trace)
    (fun s => s.loc.count = s.hist.length ∧ s.hist.length ≤ BenchTop.budget ∧
      s.loc.main_time = s.hist.length + 2 ∧
      s.hist.map stamps = (List.range s.hist.length).map fun i => if trace then [i] else [])
  · intro s ⟨h1, h2, h3, h4⟩ hc
    have hlt : s.hist.length < 20000 := by
      simp only [BenchTop.cond, BenchTop.budget, Bool.and_eq_true, decide_eq_true_eq] at hc
      omega
    have hb : BenchTop.budget = 20000 := rfl
    refine ⟨?_, ?_, ?_, ?_⟩
    · simp only [BenchTop.body, List.length_append, List.length_singleton, h1]
      omega
    · simp only [BenchTop.body, List.length_append, List.length_singleton, hb]
      omega
    · simp only [BenchTop.body, List.length_append, List.length_singleton, h3]
      omega
    · cases trace <;> simp [BenchTop.body, h4, h1, List.range_succ, stamps]
  · simp [BenchTop.init, BenchTop.budget]

theorem userCoverage_inv {σ : Type} (m : Model UserCoverage.Inputs σ) (trace : Bool)
    (dev0 : σ) (n : Nat) :
    (UserCoverage.run m trace dev0 n).loc.count =
        (UserCoverage.run m trace dev0 n).hist.length ∧
      (UserCoverage.run m trace dev0 n).hist.length ≤ UserCoverage.budget ∧
      (UserCoverage.run m trace dev0 n).hist.map stamps =
        (List.range (UserCoverage.run m trace dev0 n).hist.length).map
          fun i => if trace then [i] else [] := by
  apply iterations_invariant (UserCoverage.cond m) (UserCoverage.body m trace)
    (fun s => s.loc.count = s.hist.length ∧ s.hist.length ≤ UserCoverage.budget ∧
      s.hist.map stamps = (List.range s.hist.length).map fun i => if trace then [i] else [])
  · intro s ⟨h1, h2, h4⟩ hc
    have hlt : s.hist.length < 200 := by
      simp only [UserCoverage.cond, UserCoverage.budget, Bool.and_eq_true,
        decide_eq_true_eq] at hc
      omega
    have hb : UserCoverage.budget = 200 := rfl
    refine ⟨?_, ?_, ?_⟩
    · simp only [UserCoverage.body, List.length_append, List.length_singleton, h1]
      omega
    · simp only [UserCoverage.body, List.length_append, List.length_singleton, hb]
      omega
    · cases trace <;> simp [UserCoverage.body, h4, h1, List.range_succ, stamps]
  · simp [UserCoverage.init, UserCoverage.budget]

theorem benchTop_never_finished {σ : Type} (m : Model BenchTop.Inputs σ) (trace : Bool)
    (dev0 : σ) (hfin : NeverFinishes m dev0) (n : Nat) :
    m.gotFinish (BenchTop.run m trace dev0 n).dev = false := by
  apply iterations_invariant (BenchTop.cond m) (BenchTop.body m trace)
    (fun s => m.gotFinish s.dev = false)
  · intro s _ _
    exact hfin.2 _ _
  · exact hfin.2 _ _

theorem userCoverage_never_finished {σ : Type} (m : Model UserCoverage.Inputs σ)
    (trace : Bool) (dev0 : σ) (hfin : NeverFinishes m dev0) (n : Nat) :
    m.gotFinish (UserCoverage.run m trace dev0 n).dev = false := by
  apply iterations_invariant (UserCoverage.cond m) (UserCoverage.body m trace)
    (fun s => m.gotFinish s.dev = false)
  · intro s _ _
    exact hfin.2 _ _
  · exact hfin.1

theorem benchTop_length {σ : Type} (m : Model BenchTop.Inputs σ) (trace : Bool)
    (dev0 : σ) (hfin : NeverFinishes m dev0) (n : Nat) (hn : n ≤ BenchTop.budget) :
    (BenchTop.run m trace dev0 n).hist.length = n := by
  induction n with
  | zero => simp [BenchTop.run, iterations, BenchTop.init]
  | succ n ih =>
    have ih2 := ih (by omega)
    have hinv := benchTop_inv m trace dev0 n
    have hf := benchTop_never_finished m trace dev0 hfin n
    have hc : BenchTop.cond m (BenchTop.run m trace dev0 n) = true := by
      simp only [BenchTop.cond, hf, hinv.1, ih2, Bool.not_false, Bool.true_and,
        decide_eq_true_eq]
      omega
    have hs : BenchTop.run m trace dev0 (n + 1) =
        BenchTop.body m trace (BenchTop.run m trace dev0 n) := by
      simp only [BenchTop.run] at hc ⊢
      rw [iterations_succ, hc]
      simp
    rw [hs]
    simp [BenchTop.body, ih2]

theorem userCoverage_length {σ : Type} (m : Model UserCoverage.Inputs σ) (trace : Bool)
    (dev0 : σ) (hfin : NeverFinishes m dev0) (n : Nat) (hn : n ≤ UserCoverage.budget) :
    (UserCoverage.run m trace dev0 n).hist.length = n := by
  induction n with
  | zero => simp [UserCoverage.run, iterations, UserCoverage.init]
  | succ n ih =>
    have ih2 := ih (by omega)
    have hinv := userCoverage_inv m trace dev0 n
    have hf := userCoverage_never_finished m trace dev0 hfin n
    have hc : UserCoverage.cond m (UserCoverage.run m trace dev0 n) = true := by
      simp only [UserCoverage.cond, hf, hinv.1, ih2, Bool.not_false, Bool.true_and,
        decide_eq_true_eq]
      omega
    have hs : UserCoverage.run m trace dev0 (n + 1) =
        UserCoverage.body m trace (UserCoverage.run m trace dev0 n) := by
      simp only [UserCoverage.run] at hc ⊢
      rw [iterations_succ, hc]
      simp
    rw [hs]
    simp [UserCoverage.body, ih2]

/-- C5, amended.  In the two budget-limited harnesses, for every device the
loop makes at most the configured number of iterations (20000 in
`benchmarks/top.cpp`, 200 in `verilator/user-coverage/top.cpp`), and for every
device that never raises finish it makes exactly that number and then stops.
The loop condition also tests the finish flag: the loop is over earlier
when the device raises finish. -/
theorem budget_iterations :
    (∀ (σ : Type) (m : Model BenchTop.Inputs σ) (trace : Bool) (dev0 : σ),
        (∀ n, (BenchTop.run m trace dev0 n).hist.length ≤ BenchTop.budget) ∧
        (NeverFinishes m dev0 →
          ∃ s, BenchTop.main m trace dev0 (BenchTop.budget + 1) = some s ∧
            s.hist.length = BenchTop.budget ∧ s.loc.count = BenchTop.budget)) ∧
    (∀ (σ : Type) (m : Model UserCoverage.Inputs σ) (trace : Bool) (dev0 : σ),
        (∀ n, (UserCoverage.run m trace dev0 n).hist.length ≤ UserCoverage.budget) ∧
        (NeverFinishes m dev0 →
          ∃ s, UserCoverage.main m trace dev0 (UserCoverage.budget + 1) = some s ∧
            s.hist.length = UserCoverage.budget ∧ s.loc.count = UserCoverage.budget)) := by
  constructor
  · intro σ m trace dev0
    refine ⟨fun n => (benchTop_inv m trace dev0 n).2.1, fun hfin => ?_⟩
    have hl := benchTop_length m trace dev0 hfin BenchTop.budget (Nat.le_refl _)
    have hinv := benchTop_inv m trace dev0 BenchTop.budget
    have hc : BenchTop.cond m (BenchTop.run m trace dev0 BenchTop.budget) = false := by
      simp [BenchTop.cond, hinv.1, hl]
    exact ⟨_, whileLoop_of_exit _ _ _ _ hc, hl, hinv.1.trans hl⟩
  · intro σ m trace dev0
    refine ⟨fun n => (userCoverage_inv m trace dev0 n).2.1, fun hfin => ?_⟩
    have hl := userCoverage_length m trace dev0 hfin UserCoverage.budget (Nat.le_refl _)
    have hinv := userCoverage_inv m trace dev0 UserCoverage.budget
    have hc : UserCoverage.cond m (UserCoverage.run m trace dev0 UserCoverage.budget)
        = false := by
      simp [UserCoverage.cond, hinv.1, hl]
    exact ⟨_, whileLoop_of_exit _ _ _ _ hc, hl, hinv.1.trans hl⟩

/-- Witness of C5: both harnesses with a device that does nothing. -/
theorem budget_iterations_witness :
    (NeverFinishes (quiet BenchTop.Inputs) () ∧ NeverFinishes (quiet UserCoverage.Inputs) ()) ∧
    (∃ s, BenchTop.main (quiet BenchTop.Inputs) true () (BenchTop.budget + 1) = some s ∧
        s.hist.length = BenchTop.budget ∧ s.loc.count = BenchTop.budget) ∧
    (∃ s, UserCoverage.main (quiet UserCoverage.Inputs) true () (UserCoverage.budget + 1)
        = some s ∧
      s.hist.length = UserCoverage.budget ∧ s.loc.count = UserCoverage.budget) :=
  ⟨⟨⟨rfl, fun _ _ => rfl⟩, ⟨rfl, fun _ _ => rfl⟩⟩,
    (budget_iterations.1 Unit (quiet BenchTop.Inputs) true ()).2 ⟨rfl, fun _ _ => rfl⟩,
    (budget_iterations.2 Unit (quiet UserCoverage.Inputs) true ()).2 ⟨rfl, fun _ _ => rfl⟩⟩

/-- C5 as stated fails for a device that raises finish during the run: with
a device that raises finish in its fifth evaluation the loop of
`benchmarks/top.cpp` (two evaluations before the loop) exits after 3 of its
20000 iterations, the loop of `verilator/user-coverage/top.cpp` after 5 of
its 200. -/
theorem budget_cut_short_by_finish :
    (BenchTop.main (finishAt BenchTop.Inputs 5) false 0 (BenchTop.budget + 1)).map
        (fun s => s.hist.length) = some 3 ∧
      (UserCoverage.main (finishAt UserCoverage.Inputs 5) false 0
        (UserCoverage.budget + 1)).map (fun s => s.hist.length) = some 5 := by
  decide

/-! ## Where the inputs are written -/

theorem riscv_body_shape {σ : Type} (m : Model RiscvMini.Inputs σ)
    (s : Sim RiscvMini.Loc RiscvMini.Inputs σ) :
    ∃ it, (RiscvMini.body m s).hist = s.hist ++ [it] ∧
      ((clocksWritten it = [true] ∧ writes it = []) ∨
        (clocksWritten it = [false] ∧ writes it = ["reset"])) := by
  refine ⟨_, rfl, ?_⟩
  cases h : s.top.clock <;> simp [h, clocksWritten, writes]

theorem benchTop_body_shape {σ : Type} (m : Model BenchTop.Inputs σ) (trace : Bool)
    (s : Sim BenchTop.Loc BenchTop.Inputs σ) :
    ∃ it, (BenchTop.body m trace s).hist = s.hist ++ [it] ∧ writes it = [] := by
  refine ⟨_, rfl, ?_⟩
  cases trace <;> simp [writes]

theorem userCoverage_body_shape {σ : Type} (m : Model UserCoverage.Inputs σ) (trace : Bool)
    (s : Sim UserCoverage.Loc UserCoverage.Inputs σ) :
    ∃ it, (UserCoverage.body m trace s).hist = s.hist ++ [it] ∧ writes it = ["a", "b"] := by
  refine ⟨_, rfl, ?_⟩
  cases trace <;> simp [writes]

/-- C6, amended.  In the file-driven harnesses and in the riscv-mini harness
an input other than the clock is written only in an iteration whose clock is
low after the flip; the loop of `benchmarks/top.cpp` writes no input but the
clock; the loop of `verilator/user-coverage/top.cpp` writes `a` and `b` in
every iteration, whichever the clock. -/
theorem inputs_written_where :
    (∀ (k : FileBench) (σ : Type) (w : k.Inputs) (m : Model k.Inputs σ) (trace : Bool)
        (top0 : Top k.Inputs) (dev0 : σ) (content : List Char) (n : Nat),
        ∀ it ∈ (replayRun (k.bench w) m trace top0 dev0 content n).hist,
          (clocksWritten it = [true] ∧ writes it = []) ∨
            (clocksWritten it = [false] ∧ writes it = (k.bench w).written)) ∧
    (∀ (σ : Type) (m : Model RiscvMini.Inputs σ) (dev0 : σ) (n : Nat),
        ∀ it ∈ (RiscvMini.run m dev0 n).hist,
          (clocksWritten it = [true] ∧ writes it = []) ∨
            (clocksWritten it = [false] ∧ writes it = ["reset"])) ∧
    (∀ (σ : Type) (m : Model BenchTop.Inputs σ) (trace : Bool) (dev0 : σ) (n : Nat),
        ∀ it ∈ (BenchTop.run m trace dev0 n).hist, writes it = []) ∧
    (∀ (σ : Type) (m : Model UserCoverage.Inputs σ) (trace : Bool) (dev0 : σ) (n : Nat),
        ∀ it ∈ (UserCoverage.run m trace dev0 n).hist, writes it = ["a", "b"]) := by
  refine ⟨?_, ?_, ?_, ?_⟩
  · intro k σ w m trace top0 dev0 content n it hit
    obtain ⟨_, h⟩ := replayRun_shape (k.bench w) m trace top0 dev0 content n it hit
    rcases h with ⟨h1, _, h3⟩ | ⟨h1, _, h3⟩
    · exact Or.inl ⟨h1, h3⟩
    · exact Or.inr ⟨h1, h3⟩
  · intro σ m dev0 n
    exact hist_forall Sim.hist _ _ _ (riscv_body_shape m) _ rfl n
  · intro σ m trace dev0 n
    exact hist_forall Sim.hist _ _ _ (benchTop_body_shape m trace) _ rfl n
  · intro σ m trace dev0 n
    exact hist_forall Sim.hist _ _ _ (userCoverage_body_shape m trace) _ rfl n

/-- Witness of C6: the second iteration of the riscv-mini harness, whose
clock is low after the flip, writes `reset`. -/
theorem inputs_written_where_witness :
    [Event.clock false, Event.write "reset", Event.eval ⟨false, ⟨1⟩⟩] ∈
        (RiscvMini.run (quiet RiscvMini.Inputs) () 2).hist ∧
      ((clocksWritten [Event.clock false, Event.write "reset",
            Event.eval (⟨false, ⟨1⟩⟩ : Top RiscvMini.Inputs)] = [true] ∧
          writes [Event.clock false, Event.write "reset",
            Event.eval (⟨false, ⟨1⟩⟩ : Top RiscvMini.Inputs)] = []) ∨
        (clocksWritten [Event.clock false, Event.write "reset",
            Event.eval (⟨false, ⟨1⟩⟩ : Top RiscvMini.Inputs)] = [false] ∧
          writes [Event.clock false, Event.write "reset",
            Event.eval (⟨false, ⟨1⟩⟩ : Top RiscvMini.Inputs)] = ["reset"])) :=
  ⟨by decide, inputs_written_where.2.1 Unit (quiet RiscvMini.Inputs) () 2 _ (by decide)⟩

/-- C6 as stated fails for `verilator/user-coverage/top.cpp`: in the first
iteration of its loop the clock is high after the flip and the inputs `a` and
`b` are written. -/
theorem user_coverage_writes_on_high :
    (UserCoverage.run (quiet UserCoverage.Inputs) false () 1).hist.map
      (fun it => (clocksWritten it, writes it)) = [([true], ["a", "b"])] := by
  decide

/-! ## The waveform -/

/-- C8, amended.  Built with tracing, the three file-driven harnesses append
exactly one sample in every loop iteration, stamped with the value of
`main_time` in that iteration (the i-th iteration with i, taken modulo 2^64);
`benchmarks/top.cpp` and `verilator/user-coverage/top.cpp` append exactly one
sample in every loop iteration, stamped with the loop counter `count`, which
starts at 0 (in `benchmarks/top.cpp` `main_time` is ahead of it by 3 when the
sample is taken). -/
theorem trace_samples :
    (∀ (k : FileBench) (σ : Type) (w : k.Inputs) (m : Model k.Inputs σ)
        (top0 : Top k.Inputs) (dev0 : σ) (content : List Char) (n : Nat),
        (replayRun (k.bench w) m true top0 dev0 content n).hist.map stamps =
            (List.range (replayRun (k.bench w) m true top0 dev0 content n).hist.length).map
              (fun i => [(i + 1) % 2 ^ 64]) ∧
          (replayRun (k.bench w) m true top0 dev0 content n).loc.main_time =
            (replayRun (k.bench w) m true top0 dev0 content n).hist.length % 2 ^ 64) ∧
    (∀ (σ : Type) (m : Model BenchTop.Inputs σ) (dev0 : σ) (n : Nat),
        (BenchTop.run m true dev0 n).hist.map stamps =
            (List.range (BenchTop.run m true dev0 n).hist.length).map (fun i => [i]) ∧
          (BenchTop.run m true dev0 n).loc.count = (BenchTop.run m true dev0 n).hist.length ∧
          (BenchTop.run m true dev0 n).loc.main_time =
            (BenchTop.run m true dev0 n).hist.length + 2) ∧
    (∀ (σ : Type) (m : Model UserCoverage.Inputs σ) (dev0 : σ) (n : Nat),
        (UserCoverage.run m true dev0 n).hist.map stamps =
            (List.range (UserCoverage.run m true dev0 n).hist.length).map (fun i => [i]) ∧
          (UserCoverage.run m true dev0 n).loc.count =
            (UserCoverage.run m true dev0 n).hist.length) := by
  refine ⟨?_, ?_, ?_⟩
  · intro k σ w m top0 dev0 content n
    exact ⟨(replayRun_stamps (k.bench w) m top0 dev0 content n).2,
      (replayRun_stamps (k.bench w) m top0 dev0 content n).1⟩
  · intro σ m dev0 n
    obtain ⟨h1, _, h3, h4⟩ := benchTop_inv m true dev0 n
    exact ⟨by simpa using h4, h1, h3⟩
  · intro σ m dev0 n
    obtain ⟨h1, _, h4⟩ := userCoverage_inv m true dev0 n
    exact ⟨by simpa using h4, h1⟩

/-- C8 as stated fails in two harnesses.  In `benchmarks/top.cpp` the sample
of the first loop iteration is stamped 0, the value of `count`, while
`main_time` is 3.  The loop of the riscv-mini harness has no dump call: three
iterations leave no sample, with or without tracing. -/
theorem trace_stamp_not_main_time :
    ((BenchTop.run (quiet BenchTop.Inputs) true () 1).hist.map stamps,
        (BenchTop.run (quiet BenchTop.Inputs) true () 1).loc.main_time) = ([[0]], 3) ∧
      (RiscvMini.run (quiet RiscvMini.Inputs) () 3).hist.map stamps = [[], [], []] := by
  decide

/-! ## The reset window of the riscv-mini harness -/

/-- The state of the riscv-mini harness after `t` iterations, when the device
has not raised finish before. -/
theorem riscv_state {σ : Type} (m : Model RiscvMini.Inputs σ) (dev0 : σ) (t : Nat)
    (hrun : ∀ j < t, m.gotFinish (RiscvMini.run m dev0 j).dev = false) :
    (RiscvMini.run m dev0 t).hist.length = t ∧
      (RiscvMini.run m dev0 t).loc.main_time = t % 2 ^ 64 ∧
      (RiscvMini.run m dev0 t).top =
        ⟨decide (t % 2 ^ 64 % 2 = 1), ⟨if 2 ≤ t % 2 ^ 64 ∧ t % 2 ^ 64 ≤ 9 then 1 else 0⟩⟩ ∧
      (1 ≤ t → (RiscvMini.run m dev0 t).hist.getLast?.map evals =
        some [(RiscvMini.run m dev0 t).top]) := by
  induction t with
  | zero => simp [RiscvMini.run, iterations, RiscvMini.init]
  | succ t ih =>
    obtain ⟨h1, h2, h3, _⟩ := ih (fun j hj => hrun j (by omega))
    have hc : RiscvMini.cond m (RiscvMini.run m dev0 t) = true := by
      simp [RiscvMini.cond, hrun t (by omega)]
    have hs : RiscvMini.run m dev0 (t + 1) =
        RiscvMini.body m (RiscvMini.run m dev0 t) := by
      simp only [RiscvMini.run] at hc ⊢
      rw [iterations_succ, hc]
      simp
    have hclk : (RiscvMini.run m dev0 t).top.clock = decide (t % 2 ^ 64 % 2 = 1) := by
      rw [h3]
    have hrst : (RiscvMini.run m dev0 t).top.inp.reset =
        if 2 ≤ t % 2 ^ 64 ∧ t % 2 ^ 64 ≤ 9 then 1 else 0 := by
      rw [h3]
    have htop : (RiscvMini.body m (RiscvMini.run m dev0 t)).top =
        ⟨decide ((t + 1) % 2 ^ 64 % 2 = 1),
          ⟨if 2 ≤ (t + 1) % 2 ^ 64 ∧ (t + 1) % 2 ^ 64 ≤ 9 then 1 else 0⟩⟩ := by
      simp only [RiscvMini.body, hclk, hrst, h2]
      have hmt : (t % 2 ^ 64 + 1) % 2 ^ 64 = (t + 1) % 2 ^ 64 := by omega
      rw [hmt]
      by_cases hodd : t % 2 ^ 64 % 2 = 1
      · have he : ¬ ((t + 1) % 2 ^ 64 % 2 = 1) := by omega
        simp only [hodd, he, decide_True, decide_False, Bool.not_true, Bool.not_false,
          if_true, Bool.and_eq_true, decide_eq_true_eq]
        congr 2
        by_cases hw : 1 < (t + 1) % 2 ^ 64 ∧ (t + 1) % 2 ^ 64 < 10
        · have hw2 : 2 ≤ (t + 1) % 2 ^ 64 ∧ (t + 1) % 2 ^ 64 ≤ 9 := by omega
          rw [if_pos hw, if_pos hw2]
        · have hw2 : ¬ (2 ≤ (t + 1) % 2 ^ 64 ∧ (t + 1) % 2 ^ 64 ≤ 9) := by omega
          rw [if_neg hw, if_neg hw2]
      · have he : (t + 1) % 2 ^ 64 % 2 = 1 := by omega
        simp only [hodd, he, decide_True, decide_False, Bool.not_true, Bool.not_false]
        congr 2
        by_cases hw : 2 ≤ t % 2 ^ 64 ∧ t % 2 ^ 64 ≤ 9
        · have hw2 : 2 ≤ (t + 1) % 2 ^ 64 ∧ (t + 1) % 2 ^ 64 ≤ 9 := by omega
          rw [if_pos hw, if_pos hw2]
          rfl
        · have hw2 : ¬ (2 ≤ (t + 1) % 2 ^ 64 ∧ (t + 1) % 2 ^ 64 ≤ 9) := by omega
          rw [if_neg hw, if_neg hw2]
          rfl
    rw [hs]
    refine ⟨?_, ?_, htop, fun _ => ?_⟩
    · simp [RiscvMini.body, h1]
    · simp only [RiscvMini.body, h2]
      omega
    · have hh : (RiscvMini.body m (RiscvMini.run m dev0 t)).hist =
          (RiscvMini.run m dev0 t).hist ++
            [Event.clock (RiscvMini.body m (RiscvMini.run m dev0 t)).top.clock ::
              (if !(RiscvMini.body m (RiscvMini.run m dev0 t)).top.clock
                then [Event.write "reset"] else []) ++
              [Event.eval (RiscvMini.body m (RiscvMini.run m dev0 t)).top]] := rfl
      rw [hh]
      cases (RiscvMini.body m (RiscvMini.run m dev0 t)).top.clock <;> simp [evals]

/-- C9.  In the riscv-mini harness, as long as the device has not raised
finish, the eval call made when the time counter is t (the t-th iteration,
t = 1, 2, 3, ...; the counter is 64 bit wide) sees the clock high exactly when
t is odd, so negative edges fall on even t, and sees reset 1 exactly when
2 ≤ t ≤ 9 and 0 otherwise: reset is high at exactly four evaluations with the
clock high, those at t = 3, 5, 7, 9. -/
theorem riscv_reset_window (σ : Type) (m : Model RiscvMini.Inputs σ) (dev0 : σ) (t : Nat)
    (ht : 1 ≤ t) (hrun : ∀ j < t, m.gotFinish (RiscvMini.run m dev0 j).dev = false) :
    (RiscvMini.run m dev0 t).hist.length = t ∧
      (RiscvMini.run m dev0 t).loc.main_time = t % 2 ^ 64 ∧
      ∃ pins, (RiscvMini.run m dev0 t).hist.getLast?.map evals = some [pins] ∧
        pins.clock = decide (t % 2 ^ 64 % 2 = 1) ∧
        pins.inp.reset = (if 2 ≤ t % 2 ^ 64 ∧ t % 2 ^ 64 ≤ 9 then 1 else 0) ∧
        ((pins.clock = true ∧ pins.inp.reset = 1) ↔
          (t % 2 ^ 64 = 3 ∨ t % 2 ^ 64 = 5 ∨ t % 2 ^ 64 = 7 ∨ t % 2 ^ 64 = 9)) := by
  obtain ⟨h1, h2, h3, h4⟩ := riscv_state m dev0 t hrun
  refine ⟨h1, h2, _, h4 ht, by rw [h3], by rw [h3], ?_⟩
  rw [h3]
  simp only [decide_eq_true_eq]
  by_cases hw : 2 ≤ t % 2 ^ 64 ∧ t % 2 ^ 64 ≤ 9
  · simp only [hw, and_self, if_true, and_true]
    omega
  · simp only [hw, if_false]
    omega

/-- Witness of C9: the seventh evaluation with a device that does nothing. -/
theorem riscv_reset_window_witness :
    (1 ≤ 7 ∧ ∀ j < 7, (quiet RiscvMini.Inputs).gotFinish
        (RiscvMini.run (quiet RiscvMini.Inputs) () j).dev = false) ∧
    ((RiscvMini.run (quiet RiscvMini.Inputs) () 7).hist.length = 7 ∧
      (RiscvMini.run (quiet RiscvMini.Inputs) () 7).loc.main_time = 7 % 2 ^ 64 ∧
      ∃ pins, (RiscvMini.run (quiet RiscvMini.Inputs) () 7).hist.getLast?.map evals
          = some [pins] ∧
        pins.clock = decide (7 % 2 ^ 64 % 2 = 1) ∧
        pins.inp.reset = (if 2 ≤ 7 % 2 ^ 64 ∧ 7 % 2 ^ 64 ≤ 9 then 1 else 0) ∧
        ((pins.clock = true ∧ pins.inp.reset = 1) ↔
          (7 % 2 ^ 64 = 3 ∨ 7 % 2 ^ 64 = 5 ∨ 7 % 2 ^ 64 = 7 ∨ 7 % 2 ^ 64 = 9))) :=
  ⟨⟨by decide, fun _ _ => rfl⟩,
    riscv_reset_window Unit (quiet RiscvMini.Inputs) () 7 (by decide) (fun _ _ => rfl)⟩

end Harness
